import Mathlib

/-!
Verification development for the pairlane signalling server and peer engines.

The Room Durable Object (room.ts) is embedded as an explicit state machine:
a `RoomState` holds the accepted sockets with their attachments, the
`activePairs` map and the per-room configuration, and `step` executes one
event (a WebSocket upgrade, one client message, or a socket closure)
exactly as the handlers `fetch`, `webSocketMessage` and `webSocketClose` do.
The browser client (the room client app) is embedded separately: the
receiver data-channel handler, the offerer/answerer signalling engines, and
the chunked (optionally AES-GCM encrypted) transfer framing.
-/

set_option maxHeartbeats 1000000

namespace Pairlane

/-- Role of a connected socket, as assigned by `Room.pickRole`. -/
inductive Role where
  | offerer
  | answerer
deriving DecidableEq, Repr

/-- Queue state of an answerer socket (`AnswererState` in room.ts). -/
inductive AState where
  | waiting
  | active
  | done
deriving DecidableEq, Repr

/-- One accepted WebSocket together with its serialized attachment
(`SocketAttachment` in room.ts).  `sockId` models JavaScript object
identity of the socket; `isOpen` models `readyState === OPEN`. -/
structure Socket where
  sockId : Nat
  cid : String
  role : Role
  state : Option AState
  joinedAt : Nat
  isOpen : Bool
deriving DecidableEq, Repr

/-- The Room Durable Object state: the accepted sockets (in acceptance
order, which is the iteration order of `ctx.getWebSockets()`), the
`activePairs` map (answerer cid to offerer cid) and the configuration.
`activePairs` is kept as an association list; the code only ever uses
`get`, `set`, `delete` and `clear` on it, so its internal order is
unobservable. -/
structure RoomState where
  sockets : List Socket
  activePairs : List (String × String)
  maxConcurrent : Nat
  creatorCid : Option String
  nextId : Nat
deriving DecidableEq, Repr

/-- Server-to-client frames (`ServerToClient` in room.ts); `sdp` and
`candidate` payloads are opaque and modelled as strings. -/
inductive SMsg where
  | roleMsg (role : Role) (cid : String)
  | peersMsg (count : Nat)
  | waitMsg
  | startMsg (peerId : Option String)
  | peerLeftMsg (peerId : String)
  | offerMsg (src : String) (sid : Nat) (sdp : String)
  | answerMsg (src : String) (sid : Nat) (sdp : String)
  | candMsg (src : String) (sid : Nat) (cand : String)
deriving DecidableEq, Repr

/-- Client-to-server frames (`ClientToServer` in room.ts).  `malformed`
stands for any text that `JSON.parse` rejects or that carries no
recognised `type`. -/
inductive CMsg where
  | offer (dst : String) (sid : Nat) (sdp : String)
  | answer (dst : String) (sid : Nat) (sdp : String)
  | cand (dst : String) (sid : Nat) (cand : String)
  | transferDone (peerId : String)
  | malformed
deriving DecidableEq, Repr

/-- Open sockets of a socket list (`openSockets` filters on readyState). -/
def openList (l : List Socket) : List Socket := l.filter (·.isOpen)

/-- `Room.openSockets`. -/
def openSockets (s : RoomState) : List Socket := openList s.sockets

/-- `Room.getOffererSocket`: the first open socket whose role is offerer. -/
def getOffererSocket (s : RoomState) : Option Socket :=
  (openSockets s).find? (fun sk => decide (sk.role = Role.offerer))

/-- `Room.answererSockets`: open sockets with role answerer, in order. -/
def answererSockets (s : RoomState) : List Socket :=
  (openSockets s).filter (fun sk => decide (sk.role = Role.answerer))

/-- `Room.socketByCid`: first open socket with the given cid. -/
def socketByCid (s : RoomState) (c : String) : Option Socket :=
  (openSockets s).find? (fun sk => decide (sk.cid = c))

/-- `activePairs.get`. -/
def lookupPair (ps : List (String × String)) (a : String) : Option String :=
  (ps.find? (fun p => decide (p.1 = a))).map (·.2)

/-- `activePairs.set` (overwrites any previous binding of the key). -/
def setPair (ps : List (String × String)) (a o : String) : List (String × String) :=
  (a, o) :: ps.filter (fun p => decide (p.1 ≠ a))

/-- `activePairs.delete`. -/
def delPair (ps : List (String × String)) (a : String) : List (String × String) :=
  ps.filter (fun p => decide (p.1 ≠ a))

/-- `Room.setAnswererState` applied to the socket with identity `i`. -/
def setStateById (l : List Socket) (i : Nat) (st : AState) : List Socket :=
  l.map (fun sk => if sk.sockId = i then { sk with state := some st } else sk)

/-- `Room.hasOpenSocket cid role`. -/
def hasOpenSocket (s : RoomState) (c : String) (r : Role) : Bool :=
  (openSockets s).any (fun sk => decide (sk.cid = c) && decide (sk.role = r))

/-- The comparator of the `waiting.sort` call in `fillSlots`:
`(a, b) => aJoined - bJoined`.  `Array.prototype.sort` is a stable sort,
so the behaviour is that of the canonical stable insertion sort by
ascending `joinedAt`. -/
def joinedLE (a b : Socket) : Prop := a.joinedAt ≤ b.joinedAt

instance : DecidableRel joinedLE := fun a b => Nat.decLe a.joinedAt b.joinedAt

instance : IsTotal Socket joinedLE := ⟨fun a b => Nat.le_total a.joinedAt b.joinedAt⟩

instance : IsTrans Socket joinedLE := ⟨fun _ _ _ hab hbc => Nat.le_trans hab hbc⟩

/-- Stable sort by ascending `joinedAt`, modelling the JavaScript sort. -/
def sortJoined (l : List Socket) : List Socket := List.insertionSort joinedLE l

/-- Open answerer sockets in state waiting, in acceptance order. -/
def waitingList (s : RoomState) : List Socket :=
  (answererSockets s).filter (fun sk => decide (sk.state = some AState.waiting))

/-- The `waiting` list computed by `fillSlots`: open answerer sockets in
state waiting, stably sorted by `joinedAt`. -/
def waitingSorted (s : RoomState) : List Socket :=
  sortJoined (waitingList s)

/-- Number of open answerer sockets in state active (the `active` list of
`fillSlots`). -/
def activeCount (s : RoomState) : Nat :=
  ((answererSockets s).filter (fun sk => decide (sk.state = some AState.active))).length

/-- `Room.fillSlots`.  Promotes the first `maxConcurrent - |active|`
waiting receivers, records their pairing with the offerer and emits the
`start` frames.  Returns the new state and the sent frames as
(target socket, frame) pairs. -/
def fillSlots (s : RoomState) : RoomState × List (Nat × SMsg) :=
  match getOffererSocket s with
  | none => (s, [])
  | some off =>
    if off.cid = "" then (s, [])
    else
      let act := activeCount s
      if s.maxConcurrent ≤ act then (s, [])
      else
        let available := s.maxConcurrent - act
        let toActivate : List Socket := (waitingSorted s).take available
        let ids : List Nat := toActivate.map (·.sockId)
        let sockets' := s.sockets.map (fun sk =>
          if sk.sockId ∈ ids then { sk with state := some AState.active } else sk)
        let pairs' := toActivate.foldl
          (fun ps sk => if sk.cid ≠ "" then setPair ps sk.cid off.cid else ps) s.activePairs
        let outs := toActivate.foldr
          (fun sk acc => (sk.sockId, SMsg.startMsg none) ::
            (off.sockId, SMsg.startMsg (some sk.cid)) :: acc) []
        ({ s with sockets := sockets', activePairs := pairs' }, outs)

/-- `Room.broadcastPeers`. -/
def broadcastPeers (s : RoomState) : List (Nat × SMsg) :=
  (openSockets s).map (fun sk => (sk.sockId, SMsg.peersMsg (openSockets s).length))

/-- `Room.pickRole`.  An empty `creatorCid` is falsy in JavaScript, so it
falls back to the first-joiner rule. -/
def pickRole (s : RoomState) (c : String) : Role :=
  match s.creatorCid with
  | some cc =>
    if cc = "" then (if (getOffererSocket s).isSome then Role.answerer else Role.offerer)
    else if c = cc then Role.offerer else Role.answerer
  | none => if (getOffererSocket s).isSome then Role.answerer else Role.offerer

/-- `Room.closeDuplicateClient`: closes every open socket holding the
joining cid (a server-initiated close runs no close handler). -/
def closeAllWithCid (l : List Socket) (c : String) : List Socket :=
  l.map (fun sk => if sk.isOpen && decide (sk.cid = c) then { sk with isOpen := false } else sk)

/-- `Room.fetch` for a WebSocket upgrade: evict duplicates, pick a role,
accept the socket with a fresh attachment, send `role` (and `wait` for an
answerer), broadcast `peers`, then run the slot filler. -/
def stepUpgrade (s : RoomState) (c : String) (now : Nat) : RoomState × List (Nat × SMsg) :=
  let s1 : RoomState := { s with sockets := closeAllWithCid s.sockets c }
  let r := pickRole s1 c
  let nsock : Socket :=
    { sockId := s1.nextId, cid := c, role := r,
      state := if r = Role.answerer then some AState.waiting else none,
      joinedAt := now, isOpen := true }
  let s2 : RoomState := { s1 with sockets := s1.sockets ++ [nsock], nextId := s1.nextId + 1 }
  let out1 := (nsock.sockId, SMsg.roleMsg r c) ::
    (if r = Role.answerer then [(nsock.sockId, SMsg.waitMsg)] else [])
  let fs := fillSlots s2
  (fs.1, out1 ++ broadcastPeers s2 ++ fs.2)

/-- Socket lookup by identity (the `ws` argument of the handlers). -/
def findSock (s : RoomState) (i : Nat) : Option Socket :=
  s.sockets.find? (fun sk => decide (sk.sockId = i))

/-- `Room.webSocketMessage`: the transfer-done transition and the
authorized signalling relay with sender-side substitution. -/
def stepMsg (s : RoomState) (i : Nat) (m : CMsg) : RoomState × List (Nat × SMsg) :=
  match findSock s i with
  | none => (s, [])
  | some att =>
    match m with
    | CMsg.transferDone pid =>
      if att.role = Role.offerer then
        let s1 := match socketByCid s pid with
          | some ps => { s with sockets := setStateById s.sockets ps.sockId AState.done }
          | none => s
        fillSlots s1
      else (s, [])
    | CMsg.offer dst sid sdp =>
      if att.role = Role.offerer ∧ lookupPair s.activePairs dst = some att.cid then
        match socketByCid s dst with
        | some tg => (s, [(tg.sockId, SMsg.offerMsg att.cid sid sdp)])
        | none => (s, [])
      else (s, [])
    | CMsg.answer dst sid sdp =>
      if att.role = Role.answerer ∧ lookupPair s.activePairs att.cid = some dst then
        match socketByCid s dst with
        | some tg => (s, [(tg.sockId, SMsg.answerMsg att.cid sid sdp)])
        | none => (s, [])
      else (s, [])
    | CMsg.cand dst sid cd =>
      if (att.role = Role.offerer ∧ lookupPair s.activePairs dst = some att.cid) ∨
          (att.role = Role.answerer ∧ lookupPair s.activePairs att.cid = some dst) then
        match socketByCid s dst with
        | some tg => (s, [(tg.sockId, SMsg.candMsg att.cid sid cd)])
        | none => (s, [])
      else (s, [])
    | CMsg.malformed => (s, [])

/-- Mark one socket closed (a socket whose close event fires is no longer
`readyState OPEN` when the handler runs). -/
def markClosed (l : List Socket) (i : Nat) : List Socket :=
  l.map (fun sk => if sk.sockId = i then { sk with isOpen := false } else sk)

/-- The loop of the offerer branch of `webSocketClose`: every open
answerer is reset to waiting. -/
def setAllAnswerersWaiting (l : List Socket) : List Socket :=
  l.map (fun sk =>
    if sk.isOpen && decide (sk.role = Role.answerer) then { sk with state := some AState.waiting } else sk)

/-- `Room.webSocketClose`. -/
def stepClose (s : RoomState) (i : Nat) : RoomState × List (Nat × SMsg) :=
  match findSock s i with
  | none => (s, [])
  | some att =>
    let s0 : RoomState := { s with sockets := markClosed s.sockets i }
    match att.role with
    | Role.answerer =>
      if decide (att.cid ≠ "") && hasOpenSocket s0 att.cid Role.answerer then
        (s0, broadcastPeers s0)
      else
        let s1 := if att.cid ≠ "" then { s0 with activePairs := delPair s0.activePairs att.cid } else s0
        let outPL := match getOffererSocket s1 with
          | some off => if att.cid ≠ "" then [(off.sockId, SMsg.peerLeftMsg att.cid)] else []
          | none => []
        let fs := fillSlots s1
        (fs.1, outPL ++ fs.2 ++ broadcastPeers fs.1)
    | Role.offerer =>
      if decide (att.cid ≠ "") && hasOpenSocket s0 att.cid Role.offerer then
        (s0, broadcastPeers s0)
      else
        let s1 : RoomState := { s0 with activePairs := [] }
        let outW := (answererSockets s1).map (fun sk => (sk.sockId, SMsg.waitMsg))
        let s2 : RoomState := { s1 with sockets := setAllAnswerersWaiting s1.sockets }
        (s2, outW ++ broadcastPeers s2)

/-- Room events: a WebSocket upgrade carrying a cid (from the query or a
minted UUID), a client message on one socket, and a socket closure. -/
inductive Ev where
  | upgrade (cid : String) (now : Nat)
  | msg (sockId : Nat) (m : CMsg)
  | close (sockId : Nat)
deriving DecidableEq, Repr

/-- One actor turn of the Room. -/
def step (s : RoomState) : Ev → RoomState × List (Nat × SMsg)
  | Ev.upgrade c now => stepUpgrade s c now
  | Ev.msg i m => stepMsg s i m
  | Ev.close i => stepClose s i

/-- A freshly created room with its configuration already seeded (the
`POST /config` performed by the room-creation endpoint). -/
def initRoom (maxC : Nat) (cc : Option String) : RoomState :=
  { sockets := [], activePairs := [], maxConcurrent := maxC, creatorCid := cc, nextId := 0 }

/-- The room state reached after a sequence of events. -/
def runRoom (maxC : Nat) (cc : Option String) (evs : List Ev) : RoomState :=
  evs.foldl (fun s e => (step s e).1) (initRoom maxC cc)

/-- State recorded for the socket with identity `i` in a socket list. -/
def stateInList (l : List Socket) (i : Nat) : Option AState :=
  match l.find? (fun sk => decide (sk.sockId = i)) with
  | some sk => sk.state
  | none => none

/-- State of the socket with identity `i`, if it exists. -/
def stateOf (s : RoomState) (i : Nat) : Option AState :=
  stateInList s.sockets i

end Pairlane

namespace Pairlane

/-! ### Client: receiver data channel (wireReceiverDataChannel) -/

/-- The `meta` control frame of the data channel. -/
structure FileMeta where
  name : String
  size : Nat
  mime : String
  encrypted : Bool
deriving DecidableEq, Repr

/-- Receiver-side status values touched by the data-channel handler. -/
inductive RStatus where
  | initial
  | missingKey
  | receiving (name : String)
  | receiveComplete
deriving DecidableEq, Repr

/-- Receiver transfer state: `incomingMetaRef`, `recvChunksRef`,
`recvBytesRef`, the status line, and the exposed download (the blob is the
concatenation of the chunk buffer). -/
structure RecvSt where
  incomingMeta : Option FileMeta
  chunks : List (List Nat)
  bytes : Nat
  status : RStatus
  download : Option (List Nat)
deriving DecidableEq, Repr

/-- Receiver state before any frame arrives. -/
def initRecv : RecvSt :=
  { incomingMeta := none, chunks := [], bytes := 0, status := RStatus.initial, download := none }

/-- Data-channel frames: text control frames (meta / done / unparseable)
and binary payload frames (byte lists). -/
inductive DCFrame where
  | textMeta (m : FileMeta)
  | textDone
  | textMalformed
  | binary (b : List Nat)
deriving DecidableEq, Repr

section Crypto

variable {K : Type}

/-- The client `decryptChunk`: with no key the frame is returned as is;
with a key the first 12 bytes are the IV and the rest is AES-GCM
ciphertext.  `aesDec k iv ct` abstracts `crypto.subtle.decrypt`. -/
def decryptChunk (aesDec : K → List Nat → List Nat → List Nat) (key : Option K)
    (frame : List Nat) : List Nat :=
  match key with
  | none => frame
  | some k => aesDec k (frame.take 12) (frame.drop 12)

/-- The client `encryptChunk`: with no key the plaintext is returned as
is; with a key the output is the 12-byte IV followed by the AES-GCM
ciphertext (with tag).  `aesEnc k iv pt` abstracts `crypto.subtle.encrypt`
and `iv` the value of `crypto.getRandomValues(new Uint8Array(12))`. -/
def encryptChunk (aesEnc : K → List Nat → List Nat → List Nat) (key : Option K)
    (iv : List Nat) (plain : List Nat) : List Nat :=
  match key with
  | none => plain
  | some k => iv ++ aesEnc k iv plain

/-- One `ch.onmessage` dispatch of `wireReceiverDataChannel`. -/
def dcStep (aesDec : K → List Nat → List Nat → List Nat) (key : Option K)
    (s : RecvSt) : DCFrame → RecvSt
  | DCFrame.textMeta m =>
    { incomingMeta := some m, chunks := [], bytes := 0, download := none,
      status := if m.encrypted && key.isNone then RStatus.missingKey else RStatus.receiving m.name }
  | DCFrame.textDone =>
    match s.incomingMeta with
    | none => s
    | some _ => { s with download := some s.chunks.flatten, status := RStatus.receiveComplete }
  | DCFrame.textMalformed => s
  | DCFrame.binary b =>
    match s.incomingMeta with
    | none => s
    | some m =>
      let plain := if m.encrypted then decryptChunk aesDec key b else b
      { s with chunks := s.chunks ++ [plain], bytes := s.bytes + plain.length }

/-- Folding a whole frame sequence through the data-channel handler. -/
def runDC (aesDec : K → List Nat → List Nat → List Nat) (key : Option K)
    (s : RecvSt) (fs : List DCFrame) : RecvSt :=
  fs.foldl (dcStep aesDec key) s

/-- The sender's 16 KiB slicing loop, with explicit fuel (the loop strides
by `chunkSize` per iteration, so `file.length` iterations suffice). -/
def chunkAux (c : Nat) : Nat → List Nat → List (List Nat)
  | 0, _ => []
  | _, [] => []
  | Nat.succ fuel, l => l.take c :: chunkAux c fuel (l.drop c)

/-- The consecutive 16 KiB slices of the source file produced by
`sendFileToPeer`. -/
def chunkFile (file : List Nat) : List (List Nat) := chunkAux (16 * 1024) file.length file

/-- The exact frame sequence `sendFileToPeer` pushes down the data
channel: the meta as text, one binary frame per 16 KiB slice (encrypted
when a key is set, each slice with its own random IV), then `done`. -/
def senderFrames (aesEnc : K → List Nat → List Nat → List Nat) (key : Option K)
    (ivs : List (List Nat)) (file : List Nat) (name mime : String) : List DCFrame :=
  DCFrame.textMeta { name := name, size := file.length, mime := mime, encrypted := key.isSome } ::
    (((chunkFile file).zip ivs).map (fun p => DCFrame.binary (encryptChunk aesEnc key p.2 p.1)) ++
      [DCFrame.textDone])

end Crypto

/-! ### Client: per-peer signalling engines (ws.onmessage) -/

/-- Sender-side per-receiver connection context (`OffererPeer`), with the
externally observable effects on the `RTCPeerConnection` recorded:
`added` is the sequence of candidates passed to `addIceCandidate` and
`remoteDescs` the descriptions passed to `setRemoteDescription`. -/
structure OPeer where
  signalSid : Nat
  activeSid : Option Nat
  remoteDescSet : Bool
  pending : List (Nat × String)
  added : List String
  remoteDescs : List String
deriving DecidableEq, Repr

/-- A freshly created offerer peer context. -/
def initOPeer : OPeer :=
  { signalSid := 0, activeSid := none, remoteDescSet := false,
    pending := [], added := [], remoteDescs := [] }

/-- The sender's peer map (`offererPeersRef`). -/
structure OSt where
  peers : List (String × OPeer)
deriving DecidableEq, Repr

/-- Peer lookup in the sender's map. -/
def getPeer (st : OSt) (pid : String) : Option OPeer :=
  (st.peers.find? (fun p => decide (p.1 = pid))).map (·.2)

/-- Store a peer context under its id. -/
def setPeer (st : OSt) (pid : String) (pe : OPeer) : OSt :=
  { peers := (pid, pe) :: st.peers.filter (fun p => decide (p.1 ≠ pid)) }

/-- `closeOffererPeer`. -/
def delPeer (st : OSt) (pid : String) : OSt :=
  { peers := st.peers.filter (fun p => decide (p.1 ≠ pid)) }

/-- `flushOffererCandidates`: every buffered candidate is removed; those
tagged with the current `activeSid` are added, the stale ones discarded. -/
def flushO (pe : OPeer) : OPeer :=
  { pe with
      pending := [],
      added := pe.added ++ (pe.pending.filter (fun it => decide (some it.1 = pe.activeSid))).map (·.2) }

/-- The sender's `start{peerId}` handling: tear down any existing context,
create a fresh one and issue an offer (`sendOffer` allocates
`sid = ++signalSid` and binds `activeSid`).  Returns the new state and the
sid of the emitted offer. -/
def oStart (st : OSt) (pid : String) : OSt × Nat :=
  (setPeer (delPeer st pid) pid { initOPeer with signalSid := 1, activeSid := some 1 }, 1)

/-- The sender's `answer{from, sid, sdp}` handling. -/
def oAnswer (st : OSt) (src : String) (sid : Nat) (sdp : String) : OSt :=
  match getPeer st src with
  | none => st
  | some pe =>
    if pe.activeSid = some sid then
      setPeer st src (flushO { pe with remoteDescSet := true, remoteDescs := pe.remoteDescs ++ [sdp] })
    else st

/-- The sender's `candidate{from, sid, candidate}` handling. -/
def oCand (st : OSt) (src : String) (sid : Nat) (cd : String) : OSt :=
  match getPeer st src with
  | none => st
  | some pe =>
    if pe.activeSid = some sid then
      if pe.remoteDescSet then setPeer st src { pe with added := pe.added ++ [cd] }
      else setPeer st src { pe with pending := pe.pending ++ [(sid, cd)] }
    else st

/-- Receiver-side connection context: `receiverPcRef` and the refs beside
it, with `added` and `remoteDescs` recording the calls made on the
connection, and `answered` the `answer` frames sent back. -/
structure RSig where
  pcCreated : Bool
  peerId : Option String
  activeSid : Option Nat
  remoteDescSet : Bool
  pending : List (Nat × String)
  added : List String
  remoteDescs : List String
  answered : List (String × Nat)
deriving DecidableEq, Repr

/-- Receiver signalling state before the first offer. -/
def initRSig : RSig :=
  { pcCreated := false, peerId := none, activeSid := none, remoteDescSet := false,
    pending := [], added := [], remoteDescs := [], answered := [] }

/-- The receiver's `offer{from, sid, sdp}` handling: create (or reuse) the
connection, bind `activeSid := sid`, apply the remote description, drain
the candidate buffer (discarding entries whose sid is stale), and answer. -/
def rOffer (st : RSig) (src : String) (sid : Nat) (sdp : String) : RSig :=
  let st1 : RSig := if st.pcCreated then st
    else { st with pcCreated := true, peerId := some src, remoteDescSet := false, pending := [] }
  let st2 : RSig := { st1 with
      activeSid := some sid,
      remoteDescs := st1.remoteDescs ++ [sdp], remoteDescSet := true }
  let st3 : RSig := { st2 with
      pending := [],
      added := st2.added ++ (st2.pending.filter (fun it => decide (some it.1 = st2.activeSid))).map (·.2) }
  { st3 with answered := st3.answered ++ [(src, sid)] }

/-- The receiver's `candidate{from, sid, candidate}` handling: frames from
a different peer are dropped; before the remote description is set the
candidate is buffered tagged with its sid; afterwards it is added
directly. -/
def rCand (st : RSig) (src : String) (sid : Nat) (cd : String) : RSig :=
  if st.peerId = some src then
    if st.pcCreated then
      if st.remoteDescSet then { st with added := st.added ++ [cd] }
      else { st with pending := st.pending ++ [(sid, cd)] }
    else st
  else st

/-! ### Router: the room-creation endpoint (index.tsx) -/

/-- A `POST /api/rooms` request: the source network address it arrives
from and the parsed JSON body (`maxConcurrent` as an already-floored
finite number, absent when not finite). -/
structure CreateReq where
  srcAddr : String
  maxConcurrent : Option Int
  creatorCid : Option String
deriving DecidableEq, Repr

/-- The HTTP answer of the endpoint. -/
structure CreateResp where
  status : Nat
  roomId : Option String
deriving DecidableEq, Repr

/-- Room configuration as stored by the `POST /config` the endpoint
issues to the Durable Object. -/
structure StoredConfig where
  maxConcurrent : Int
  creatorCid : Option String
deriving DecidableEq, Repr

/-- `normalizeMaxConcurrent` of room.ts: clamp to `[1, 10]`, default 3. -/
def normalizeMaxConcurrent (v : Option Int) : Int :=
  match v with
  | some x => min 10 (max 1 x)
  | none => 3

/-- The `app.post` handler for `/api/rooms`: it floors and lower-clamps
`maxConcurrent`, mints a room id, seeds the room's config (the room
re-normalizes it with the upper clamp) and returns `{ roomId }`.  It
consults no rate-limiter state of any kind. -/
def postRooms (req : CreateReq) (mintedId : String) : CreateResp × StoredConfig :=
  let mc : Int := match req.maxConcurrent with
    | some v => max 1 v
    | none => 3
  ({ status := 200, roomId := some mintedId },
    { maxConcurrent := normalizeMaxConcurrent (some mc), creatorCid := req.creatorCid })

/-- Responses to a whole sequence of creation requests (each paired with
the room id minted for it). -/
def postRoomsMany (reqs : List (CreateReq × String)) : List CreateResp :=
  reqs.map (fun p => (postRooms p.1 p.2).1)

end Pairlane

namespace Pairlane

/-! ### Reachability invariant of the Room -/

/-- The structural invariant maintained by every Room handler: socket
identities are distinct and below the id counter; at most one open socket
is an offerer; with a (non-empty) creator pin every open offerer carries
it; every `activePairs` entry implies an open offerer whose cid is the
entry's value and an open socket carrying the entry's key, and its key is
non-empty; every open active answerer with a non-empty cid has an entry;
and the number of open active answerers never exceeds `maxConcurrent`. -/
def Inv (s : RoomState) : Prop :=
  (s.sockets.map (·.sockId)).Nodup ∧
  (∀ sk ∈ s.sockets, sk.sockId < s.nextId) ∧
  (∀ sk1 ∈ openSockets s, ∀ sk2 ∈ openSockets s,
    sk1.role = Role.offerer → sk2.role = Role.offerer → sk1 = sk2) ∧
  (∀ cc, s.creatorCid = some cc → cc ≠ "" →
    ∀ sk ∈ openSockets s, sk.role = Role.offerer → sk.cid = cc) ∧
  (∀ p ∈ s.activePairs, ∃ sk ∈ openSockets s, sk.role = Role.offerer) ∧
  (∀ p ∈ s.activePairs, ∀ sk ∈ openSockets s, sk.role = Role.offerer → sk.cid = p.2) ∧
  (∀ sk ∈ openSockets s, sk.role = Role.answerer → sk.state = some AState.active →
    sk.cid ≠ "" → (lookupPair s.activePairs sk.cid).isSome = true) ∧
  (∀ p ∈ s.activePairs, ∃ sk ∈ openSockets s, sk.cid = p.1) ∧
  (∀ p ∈ s.activePairs, p.1 ≠ "") ∧
  activeCount s ≤ s.maxConcurrent

/-- Predicate counted by the concurrency invariant: an open answerer
socket in state active. -/
def isActiveOpen (sk : Socket) : Bool :=
  sk.isOpen && decide (sk.role = Role.answerer) && decide (sk.state = some AState.active)

/-- A socket of `s` that the transition from `s` to `s₂` promoted from
waiting to active. -/
def promotedIn (s s₂ : RoomState) (sk : Socket) : Prop :=
  sk ∈ openSockets s ∧ sk.role = Role.answerer ∧ sk.state = some AState.waiting ∧
    stateOf s₂ sk.sockId = some AState.active

end Pairlane

namespace Pairlane

/-! ## Theorems -/

/-- C10: a binary data-channel frame arriving while `incomingMeta` is
unset is discarded entirely: the receiver state (chunk buffer, byte
counter, status, download) is unchanged. -/
theorem C10_binary_without_meta_ignored {K : Type}
    (aesDec : K → List Nat → List Nat → List Nat) (key : Option K)
    (s : RecvSt) (b : List Nat) (h : s.incomingMeta = none) :
    dcStep aesDec key s (DCFrame.binary b) = s := by
  simp [dcStep, h]

/-- Witness for C10: the initial receiver state has no meta, and a binary
frame leaves it unchanged. -/
theorem C10_witness :
    (initRecv.incomingMeta = none) ∧
      dcStep (K := Unit) (fun _ _ ct => ct) none initRecv (DCFrame.binary [1, 2, 3]) = initRecv :=
  ⟨rfl, C10_binary_without_meta_ignored (fun _ _ ct => ct) none initRecv [1, 2, 3] rfl⟩

/-- C7 counterexample: with no key available and an encrypted meta, the
status does become `missingKey`, but the next binary frame is NOT
ignored: the raw frame is appended to the reassembly buffer and the byte
counter advances (`decryptChunk` returns the frame unchanged when the key
is null, and the meta was stored before the key check). -/
theorem C7_counterexample :
    (dcStep (K := Unit) (fun _ _ ct => ct) none initRecv
        (DCFrame.textMeta { name := "f", size := 3, mime := "m", encrypted := true })).status =
      RStatus.missingKey ∧
    (dcStep (K := Unit) (fun _ _ ct => ct) none
        (dcStep (K := Unit) (fun _ _ ct => ct) none initRecv
          (DCFrame.textMeta { name := "f", size := 3, mime := "m", encrypted := true }))
        (DCFrame.binary [9, 8, 7])).chunks = [[9, 8, 7]] ∧
    (dcStep (K := Unit) (fun _ _ ct => ct) none
        (dcStep (K := Unit) (fun _ _ ct => ct) none initRecv
          (DCFrame.textMeta { name := "f", size := 3, mime := "m", encrypted := true }))
        (DCFrame.binary [9, 8, 7])).bytes = 3 := by
  decide

/-- C7 amended: when a meta frame with `encrypted = true` arrives and no
key is available, the transfer is marked failed with the visible
`missingKey` status (and the chunk buffer and byte counter are reset by
the meta), but subsequent binary frames are NOT ignored: each one is
appended undecrypted to the reassembly buffer and advances the byte
counter. -/
theorem C7_missing_key_amended {K : Type}
    (aesDec : K → List Nat → List Nat → List Nat) (m : FileMeta) (s : RecvSt) (b : List Nat)
    (hm : m.encrypted = true) (hs : s.incomingMeta = some m) :
    (dcStep aesDec (none : Option K) s (DCFrame.textMeta m)).status = RStatus.missingKey ∧
    (dcStep aesDec (none : Option K) s (DCFrame.textMeta m)).chunks = [] ∧
    (dcStep aesDec (none : Option K) s (DCFrame.textMeta m)).bytes = 0 ∧
    dcStep aesDec (none : Option K) s (DCFrame.binary b) =
      { s with chunks := s.chunks ++ [b], bytes := s.bytes + b.length } := by
  refine ⟨?_, rfl, rfl, ?_⟩
  · simp [dcStep, hm]
  · simp [dcStep, hs, hm, decryptChunk]

/-- Witness for C7's amended statement at a concrete state. -/
theorem C7_amended_witness :
    ({ name := "f", size := 3, mime := "m", encrypted := true } : FileMeta).encrypted = true ∧
    (dcStep (K := Unit) (fun _ _ ct => ct) none initRecv
        (DCFrame.textMeta { name := "f", size := 3, mime := "m", encrypted := true })).incomingMeta =
      some { name := "f", size := 3, mime := "m", encrypted := true } ∧
    dcStep (K := Unit) (fun _ _ ct => ct) none
        (dcStep (K := Unit) (fun _ _ ct => ct) none initRecv
          (DCFrame.textMeta { name := "f", size := 3, mime := "m", encrypted := true }))
        (DCFrame.binary [9, 8, 7]) =
      { (dcStep (K := Unit) (fun _ _ ct => ct) none initRecv
          (DCFrame.textMeta { name := "f", size := 3, mime := "m", encrypted := true })) with
            chunks := [[9, 8, 7]], bytes := 3 } :=
  ⟨rfl, rfl,
    (C7_missing_key_amended (fun _ _ ct => ct)
      { name := "f", size := 3, mime := "m", encrypted := true } _ [9, 8, 7] rfl rfl).2.2.2⟩

/-- C9 counterexample: one hundred creation requests from a single source
address all succeed with status 200 and a room id; no request is ever
answered with 429, because the handler consults no rate limiter. -/
theorem C9_counterexample :
    postRoomsMany (List.replicate 100
        ({ srcAddr := "203.0.113.9", maxConcurrent := none, creatorCid := none }, "RID234")) =
      List.replicate 100 { status := 200, roomId := some "RID234" } := by
  decide

/-- C9 amended: `POST /api/rooms` applies no rate limiting at all: every
request, from any source address and after any history, is answered with
status 200 and the minted `{ roomId }` (never 429), and the room
configuration seeded for it carries a `maxConcurrent` clamped into
`[1, 10]`. -/
theorem C9_no_rate_limit_amended :
    (∀ reqs : List (CreateReq × String), ∀ r ∈ postRoomsMany reqs,
      r.status = 200 ∧ r.status ≠ 429 ∧ r.roomId.isSome = true) ∧
    (∀ req mintedId, (postRooms req mintedId).1 = { status := 200, roomId := some mintedId } ∧
      1 ≤ (postRooms req mintedId).2.maxConcurrent ∧
      (postRooms req mintedId).2.maxConcurrent ≤ 10) := by
  constructor
  · intro reqs r hr
    rcases List.mem_map.1 hr with ⟨p, _, rfl⟩
    exact ⟨rfl, by simp [postRooms], rfl⟩
  · intro req mintedId
    refine ⟨rfl, ?_, ?_⟩
    · cases h : req.maxConcurrent <;>
        simp [postRooms, normalizeMaxConcurrent, h, le_min_iff, le_max_iff]
    · cases h : req.maxConcurrent <;>
        simp [postRooms, normalizeMaxConcurrent, h, min_le_iff]

/-- Witness for C9's amended statement on a concrete request list. -/
theorem C9_amended_witness :
    ({ status := 200, roomId := some "W" } : CreateResp).status = 200 ∧
    ({ status := 200, roomId := some "W" } : CreateResp).status ≠ 429 ∧
    ({ status := 200, roomId := some "W" } : CreateResp).roomId.isSome = true :=
  C9_no_rate_limit_amended.1
    [({ srcAddr := "198.51.100.7", maxConcurrent := some 99, creatorCid := none }, "W")]
    { status := 200, roomId := some "W" } (by decide)

end Pairlane

namespace Pairlane

/-- C6 counterexample: on the answerer engine, after binding to an offer
with `sid = 2`, a candidate carrying the old `sid = 1` from the bound
peer arrives when the remote description is already set and IS passed to
`addIceCandidate` — it is not dropped, contradicting the claim that such
a frame is never added. -/
theorem C6_counterexample :
    (rOffer initRSig "X" 2 "SDP").activeSid = some 2 ∧
    (rOffer initRSig "X" 2 "SDP").remoteDescSet = true ∧
    (rCand (rOffer initRSig "X" 2 "SDP") "X" 1 "CAND").added = ["CAND"] := by
  decide

/-- C6 amended: on the offerer engine every `answer` or `candidate` whose
sid differs from the peer's current `activeSid` is dropped with no effect
at all; on the answerer engine a candidate is never added while the
remote description is unset (stale entries are discarded from the buffer
at the next drain), but once the remote description is set an in-filter
candidate from the bound peer is added immediately with NO sid check, so
a stale-sid candidate arriving at that point is added. -/
theorem C6_stale_sid_amended :
    (∀ st src sid sdp pe, getPeer st src = some pe → ¬ pe.activeSid = some sid →
      oAnswer st src sid sdp = st) ∧
    (∀ st src sid cd pe, getPeer st src = some pe → ¬ pe.activeSid = some sid →
      oCand st src sid cd = st) ∧
    (∀ st src sid cd, st.remoteDescSet = false → (rCand st src sid cd).added = st.added) ∧
    (∀ st src sid cd, st.peerId = some src → st.pcCreated = true → st.remoteDescSet = true →
      rCand st src sid cd = { st with added := st.added ++ [cd] }) := by
  refine ⟨?_, ?_, ?_, ?_⟩
  · intro st src sid sdp pe hpe hsid
    simp [oAnswer, hpe, hsid]
  · intro st src sid cd pe hpe hsid
    simp [oCand, hpe, hsid]
  · intro st src sid cd h
    unfold rCand
    split_ifs <;> simp_all
  · intro st src sid cd h1 h2 h3
    simp [rCand, h1, h2, h3]

/-- Witness for C6's amended statement at concrete engine states. -/
theorem C6_amended_witness :
    oAnswer (OSt.mk [("P", { initOPeer with signalSid := 1, activeSid := some 1 })]) "P" 2 "x" =
      OSt.mk [("P", { initOPeer with signalSid := 1, activeSid := some 1 })] ∧
    (rCand initRSig "X" 1 "c").added = initRSig.added ∧
    rCand (rOffer initRSig "X" 2 "S") "X" 1 "c" =
      { (rOffer initRSig "X" 2 "S") with added := (rOffer initRSig "X" 2 "S").added ++ ["c"] } :=
  ⟨C6_stale_sid_amended.1 _ "P" 2 "x" { initOPeer with signalSid := 1, activeSid := some 1 }
      (by decide) (by decide),
    C6_stale_sid_amended.2.2.1 initRSig "X" 1 "c" rfl,
    C6_stale_sid_amended.2.2.2 (rOffer initRSig "X" 2 "S") "X" 1 "c"
      (by decide) (by decide) (by decide)⟩

end Pairlane

namespace Pairlane

/-- Concatenating the slices produced by the sender's chunking loop
reproduces the input list. -/
theorem chunkAux_flatten (c : Nat) (hc : 1 ≤ c) :
    ∀ (fuel : Nat) (l : List Nat), l.length ≤ fuel → (chunkAux c fuel l).flatten = l
  | 0, l, h => by
    have hl : l = [] := List.eq_nil_of_length_eq_zero (Nat.le_zero.mp h)
    subst hl; rfl
  | Nat.succ _, [], _ => rfl
  | Nat.succ fuel, x :: xs, h => by
    have hlen : ((x :: xs).drop c).length ≤ fuel := by
      rw [List.length_drop]
      simp only [List.length_cons] at h ⊢
      omega
    simp only [chunkAux, List.flatten_cons,
      chunkAux_flatten c hc fuel _ hlen, List.take_append_drop]

/-- Decrypting an encrypted chunk with the shared key recovers the
plaintext: the 12-byte IV prefix is split off and AES-GCM decryption
inverts AES-GCM encryption under the same key and IV. -/
theorem decrypt_encrypt {K : Type} (aesEnc aesDec : K → List Nat → List Nat → List Nat)
    (hAES : ∀ k iv pt, aesDec k iv (aesEnc k iv pt) = pt)
    (k : K) (iv pt : List Nat) (hiv : iv.length = 12) :
    decryptChunk aesDec (some k) (encryptChunk aesEnc (some k) iv pt) = pt := by
  simp [decryptChunk, encryptChunk, List.take_left' hiv, List.drop_left' hiv, hAES]

/-- Folding the encrypted binary frames of a chunk/IV list through the
receiver appends exactly the plaintext chunks in order and advances the
byte counter by their total length. -/
theorem runDC_encrypted_binaries {K : Type} (aesEnc aesDec : K → List Nat → List Nat → List Nat)
    (hAES : ∀ k iv pt, aesDec k iv (aesEnc k iv pt) = pt) (k : K) :
    ∀ (prs : List (List Nat × List Nat)) (s : RecvSt) (m : FileMeta),
      s.incomingMeta = some m → m.encrypted = true →
      (∀ p ∈ prs, p.2.length = 12) →
      runDC aesDec (some k) s
          (prs.map (fun p => DCFrame.binary (encryptChunk aesEnc (some k) p.2 p.1))) =
        { s with chunks := s.chunks ++ prs.map (·.1),
                 bytes := s.bytes + (prs.map (fun p => p.1.length)).sum }
  | [], s, m, _, _, _ => by simp [runDC]
  | p :: prs, s, m, hm, henc, hiv => by
    have h1 : dcStep aesDec (some k) s (DCFrame.binary (encryptChunk aesEnc (some k) p.2 p.1)) =
        { s with chunks := s.chunks ++ [p.1], bytes := s.bytes + p.1.length } := by
      simp [dcStep, hm, henc,
        decrypt_encrypt aesEnc aesDec hAES k _ _ (hiv p (List.mem_cons_self p prs))]
    have h2 := runDC_encrypted_binaries aesEnc aesDec hAES k prs
      { s with chunks := s.chunks ++ [p.1], bytes := s.bytes + p.1.length } m hm henc
      (fun q hq => hiv q (List.mem_cons_of_mem p hq))
    simp only [List.map_cons, runDC, List.foldl_cons, h1] at h2 ⊢
    rw [h2]
    simp [Nat.add_assoc]

/-- C8: per-chunk decrypt-of-encrypt is the identity under the shared key
(frames are IV-prefixed AES-GCM ciphertexts); the sender's 16 KiB slices
concatenate back to the source file; and the receiver, fed the sender's
exact frame sequence, accumulates exactly the plaintext slices in receipt
order and finalizes on the done frame a download that is byte-for-byte
the source file, with the byte counter at the file size. -/
theorem C8_transfer_roundtrip {K : Type} (aesEnc aesDec : K → List Nat → List Nat → List Nat)
    (k : K) (ivs : List (List Nat)) (file : List Nat) (name mime : String)
    (hAES : ∀ k iv pt, aesDec k iv (aesEnc k iv pt) = pt)
    (hiv : ∀ iv ∈ ivs, iv.length = 12)
    (hlen : (chunkFile file).length ≤ ivs.length) :
    (∀ iv pt, iv.length = 12 →
      decryptChunk aesDec (some k) (encryptChunk aesEnc (some k) iv pt) = pt) ∧
    (chunkFile file).flatten = file ∧
    (runDC aesDec (some k) initRecv
        (senderFrames aesEnc (some k) ivs file name mime)).chunks = chunkFile file ∧
    (runDC aesDec (some k) initRecv
        (senderFrames aesEnc (some k) ivs file name mime)).download = some file ∧
    (runDC aesDec (some k) initRecv
        (senderFrames aesEnc (some k) ivs file name mime)).bytes = file.length ∧
    (runDC aesDec (some k) initRecv
        (senderFrames aesEnc (some k) ivs file name mime)).status = RStatus.receiveComplete := by
  have hflat : (chunkFile file).flatten = file :=
    chunkAux_flatten (16 * 1024) (by norm_num) file.length file le_rfl
  have hmeta : dcStep aesDec (some k) initRecv
      (DCFrame.textMeta { name := name, size := file.length, mime := mime, encrypted := true }) =
      { incomingMeta := some { name := name, size := file.length, mime := mime, encrypted := true },
        chunks := [], bytes := 0, status := RStatus.receiving name, download := none } := by
    simp [dcStep]
  have hbin := runDC_encrypted_binaries aesEnc aesDec hAES k ((chunkFile file).zip ivs)
    { incomingMeta := some { name := name, size := file.length, mime := mime, encrypted := true },
      chunks := [], bytes := 0, status := RStatus.receiving name, download := none }
    { name := name, size := file.length, mime := mime, encrypted := true }
    rfl rfl (fun q hq => hiv q.2 (List.of_mem_zip hq).2)
  have hfst : ((chunkFile file).zip ivs).map Prod.fst = chunkFile file :=
    List.map_fst_zip _ _ hlen
  have hsum : (((chunkFile file).zip ivs).map (fun p => p.1.length)).sum = file.length := by
    have : ((chunkFile file).zip ivs).map (fun p => p.1.length) =
        (((chunkFile file).zip ivs).map Prod.fst).map List.length := by
      simp [List.map_map, Function.comp]
    rw [this, hfst, ← List.length_flatten, hflat]
  have hrun : runDC aesDec (some k) initRecv (senderFrames aesEnc (some k) ivs file name mime) =
      { incomingMeta := some { name := name, size := file.length, mime := mime, encrypted := true },
        chunks := chunkFile file, bytes := file.length,
        status := RStatus.receiveComplete,
        download := some file } := by
    simp only [runDC] at hbin
    simp only [senderFrames, Option.isSome_some, runDC, List.foldl_cons, List.foldl_append]
    rw [hmeta, hbin]
    simp [dcStep, hfst, hsum, hflat]
  exact ⟨fun iv pt h => decrypt_encrypt aesEnc aesDec hAES k iv pt h, hflat,
    by rw [hrun], by rw [hrun], by rw [hrun], by rw [hrun]⟩

/-- Witness for C8 with the identity cipher, a 3-byte file and one
12-byte IV. -/
theorem C8_witness :
    (runDC (K := Unit) (fun _ _ ct => ct) (some ()) initRecv
        (senderFrames (fun _ _ pt => pt) (some ()) [List.replicate 12 0] [1, 2, 3] "n" "m")).download =
      some [1, 2, 3] :=
  (C8_transfer_roundtrip (fun _ _ pt => pt) (fun _ _ ct => ct) () [List.replicate 12 0]
    [1, 2, 3] "n" "m" (fun _ _ _ => rfl) (by decide) (by decide)).2.2.2.1

end Pairlane

namespace Pairlane

/-! ### Stable sorting by joinedAt -/

/-- The stable sort is a permutation of its input. -/
theorem sortJoined_perm (l : List Socket) : (sortJoined l).Perm l :=
  List.perm_insertionSort joinedLE l

/-- The stable sort is sorted by ascending `joinedAt`. -/
theorem sortJoined_sorted (l : List Socket) : (sortJoined l).Sorted joinedLE :=
  List.sorted_insertionSort joinedLE l

/-- Ordered insertion respects the per-timestamp sublists: an element is
inserted in front of the equal-timestamp block only when it is the new
head, never between existing equal elements. -/
theorem filter_time_orderedInsert (t : Nat) (a : Socket) (l : List Socket) :
    (List.orderedInsert joinedLE a l).filter (fun sk => decide (sk.joinedAt = t)) =
      if a.joinedAt = t then a :: l.filter (fun sk => decide (sk.joinedAt = t))
      else l.filter (fun sk => decide (sk.joinedAt = t)) := by
  induction l with
  | nil =>
    by_cases hat : a.joinedAt = t <;> simp [List.orderedInsert, hat]
  | cons b l ih =>
    rw [List.orderedInsert]
    by_cases hab : joinedLE a b
    · rw [if_pos hab]
      by_cases hat : a.joinedAt = t <;> simp [List.filter_cons, hat]
    · rw [if_neg hab]
      by_cases hat : a.joinedAt = t
      · have hbt : ¬ b.joinedAt = t := by
          unfold joinedLE at hab; omega
        simp [List.filter_cons, hat, hbt, ih]
      · by_cases hbt : b.joinedAt = t <;> simp [List.filter_cons, hat, hbt, ih]

/-- Stability of the sort: for every timestamp, the sockets carrying it
appear in the sorted list in exactly their input (queue) order. -/
theorem filter_time_sortJoined (t : Nat) (l : List Socket) :
    (sortJoined l).filter (fun sk => decide (sk.joinedAt = t)) =
      l.filter (fun sk => decide (sk.joinedAt = t)) := by
  induction l with
  | nil => rfl
  | cons a l ih =>
    have ih' : (List.insertionSort joinedLE l).filter (fun sk => decide (sk.joinedAt = t)) =
        l.filter (fun sk => decide (sk.joinedAt = t)) := ih
    rw [sortJoined, List.insertionSort, filter_time_orderedInsert]
    by_cases hat : a.joinedAt = t <;> simp [List.filter_cons, hat, ih']

end Pairlane

namespace Pairlane

/-- Explicit form of `fillSlots` in the promoting case. -/
theorem fillSlots_eq (s : RoomState) (off : Socket)
    (hoff : getOffererSocket s = some off) (hcid : ¬ off.cid = "")
    (hlt : ¬ s.maxConcurrent ≤ activeCount s) :
    (fillSlots s).1 = { s with
      sockets := s.sockets.map (fun sk =>
        if sk.sockId ∈ ((waitingSorted s).take (s.maxConcurrent - activeCount s)).map (·.sockId)
        then { sk with state := some AState.active } else sk),
      activePairs := ((waitingSorted s).take (s.maxConcurrent - activeCount s)).foldl
        (fun ps sk => if sk.cid ≠ "" then setPair ps sk.cid off.cid else ps) s.activePairs } := by
  simp [fillSlots, hoff, hcid, hlt]

/-- Membership in the waiting queue unfolded to attachment facts. -/
theorem mem_waitingList {s : RoomState} {sk : Socket} :
    sk ∈ waitingList s ↔
      sk ∈ s.sockets ∧ sk.isOpen = true ∧ sk.role = Role.answerer ∧
        sk.state = some AState.waiting := by
  simp only [waitingList, answererSockets, openSockets, openList, List.mem_filter,
    decide_eq_true_eq]
  tauto

/-- `find?` by socket identity commutes with maps that keep identities. -/
theorem find?_sockId_map (l : List Socket) (f : Socket → Socket)
    (hf : ∀ x, (f x).sockId = x.sockId) (i : Nat) :
    (l.map f).find? (fun x => decide (x.sockId = i)) =
      (l.find? (fun x => decide (x.sockId = i))).map f := by
  have hpq : ((fun x : Socket => decide (x.sockId = i)) ∘ f) =
      (fun x : Socket => decide (x.sockId = i)) := by
    funext x
    simp [Function.comp, hf]
  rw [List.find?_map f l, hpq]

/-- With distinct socket identities, looking a member socket up by its own
identity returns exactly it. -/
theorem findSock_self (s : RoomState) (hnodup : (s.sockets.map (·.sockId)).Nodup)
    (sk : Socket) (hmem : sk ∈ s.sockets) : findSock s sk.sockId = some sk := by
  cases hfind : findSock s sk.sockId with
  | none =>
    exfalso
    have h1 : ∃ x ∈ s.sockets, decide (x.sockId = sk.sockId) = true := ⟨sk, hmem, by simp⟩
    have h2 := List.find?_isSome.mpr h1
    rw [show s.sockets.find? (fun x => decide (x.sockId = sk.sockId)) =
        findSock s sk.sockId from rfl, hfind] at h2
    simp at h2
  | some sk₀ =>
    have h1 : sk₀ ∈ s.sockets := List.mem_of_find?_eq_some hfind
    have h2 : sk₀.sockId = sk.sockId := by
      have := List.find?_some hfind
      simpa using this
    rw [List.inj_on_of_nodup_map hnodup h1 hmem h2]

end Pairlane

namespace Pairlane

/-- Looking a member socket up by its own identity in a list with
distinct identities returns exactly it. -/
theorem find?_id_self (l : List Socket) (hnodup : (l.map (·.sockId)).Nodup)
    (sk : Socket) (hmem : sk ∈ l) :
    l.find? (fun x => decide (x.sockId = sk.sockId)) = some sk := by
  cases hfind : l.find? (fun x => decide (x.sockId = sk.sockId)) with
  | none =>
    exfalso
    have h1 : ∃ x ∈ l, decide (x.sockId = sk.sockId) = true := ⟨sk, hmem, by simp⟩
    have h2 := List.find?_isSome.mpr h1
    rw [hfind] at h2
    simp at h2
  | some sk₀ =>
    have h1 : sk₀ ∈ l := List.mem_of_find?_eq_some hfind
    have h2 : sk₀.sockId = sk.sockId := by
      have := List.find?_some hfind
      simpa using this
    rw [List.inj_on_of_nodup_map hnodup h1 hmem h2]

/-- An identity-preserving update leaves the looked-up state equal to the
update of the member socket's state. -/
theorem stateInList_map (l : List Socket) (f : Socket → Socket)
    (hf : ∀ x, (f x).sockId = x.sockId)
    (hnodup : (l.map (·.sockId)).Nodup)
    (sk : Socket) (hmem : sk ∈ l) :
    stateInList (l.map f) sk.sockId = (f sk).state := by
  unfold stateInList
  rw [find?_sockId_map _ _ hf, find?_id_self l hnodup sk hmem, Option.map_some']

end Pairlane

namespace Pairlane

/-- C4 counterexample: with `maxConcurrent = 1`, receivers `c`, `b`, `a`
join in that order, `b` and `a` with the identical `joinedAt = 5`; `b`
precedes `a` in acceptance order while `a` is lexicographically smaller.
When `transfer-done{c}` frees the slot, the code promotes `b` (stable
sort: insertion order breaks the tie), not `a` as the claimed
cid-lexicographic tie-break would require. -/
theorem C4_counterexample :
    findSock (runRoom 1 none
        [Ev.upgrade "o" 0, Ev.upgrade "c" 1, Ev.upgrade "b" 5, Ev.upgrade "a" 5]) 2 =
      some { sockId := 2, cid := "b", role := Role.answerer,
             state := some AState.waiting, joinedAt := 5, isOpen := true } ∧
    findSock (runRoom 1 none
        [Ev.upgrade "o" 0, Ev.upgrade "c" 1, Ev.upgrade "b" 5, Ev.upgrade "a" 5]) 3 =
      some { sockId := 3, cid := "a", role := Role.answerer,
             state := some AState.waiting, joinedAt := 5, isOpen := true } ∧
    "a".data = ['a'] ∧ "b".data = ['b'] ∧ ('a' : Char) < 'b' ∧
    stateOf (runRoom 1 none
        [Ev.upgrade "o" 0, Ev.upgrade "c" 1, Ev.upgrade "b" 5, Ev.upgrade "a" 5,
         Ev.msg 0 (CMsg.transferDone "c")]) 2 = some AState.active ∧
    stateOf (runRoom 1 none
        [Ev.upgrade "o" 0, Ev.upgrade "c" 1, Ev.upgrade "b" 5, Ev.upgrade "a" 5,
         Ev.msg 0 (CMsg.transferDone "c")]) 3 = some AState.waiting := by
  decide

/-- C4 amended: whenever `fillSlots` promotes, it promotes exactly the
first `maxConcurrent - |active|` sockets of the waiting queue stably
sorted by ascending `joinedAt` — ties are broken by acceptance (socket
insertion) order, NOT by cid: the sort is a permutation of the waiting
queue, sorted by `joinedAt`, preserving the queue order inside every
equal-`joinedAt` class; the number promoted is
`min (maxConcurrent - |active|) |waiting|`, and every promoted receiver
has a `joinedAt` no larger than that of every receiver left waiting. -/
theorem C4_fifo_promotion_amended (s : RoomState) (off : Socket)
    (hnodup : (s.sockets.map (·.sockId)).Nodup)
    (hoff : getOffererSocket s = some off) (hcid : ¬ off.cid = "")
    (hroom : activeCount s < s.maxConcurrent) :
    (∀ sk ∈ s.sockets,
      (promotedIn s (fillSlots s).1 sk ↔
        sk ∈ (waitingSorted s).take (s.maxConcurrent - activeCount s))) ∧
    (waitingSorted s).Perm (waitingList s) ∧
    (waitingSorted s).Sorted joinedLE ∧
    (∀ t, (waitingSorted s).filter (fun sk => decide (sk.joinedAt = t)) =
      (waitingList s).filter (fun sk => decide (sk.joinedAt = t))) ∧
    ((waitingSorted s).take (s.maxConcurrent - activeCount s)).length =
      min (s.maxConcurrent - activeCount s) (waitingList s).length ∧
    (∀ p ∈ (waitingSorted s).take (s.maxConcurrent - activeCount s),
      ∀ q ∈ waitingList s, q ∉ (waitingSorted s).take (s.maxConcurrent - activeCount s) →
        p.joinedAt ≤ q.joinedAt) := by
  have hlt : ¬ s.maxConcurrent ≤ activeCount s := not_le.mpr hroom
  have hfse := fillSlots_eq s off hoff hcid hlt
  have hperm : (waitingSorted s).Perm (waitingList s) := sortJoined_perm (waitingList s)
  refine ⟨?_, hperm, sortJoined_sorted (waitingList s),
    fun t => filter_time_sortJoined t (waitingList s), ?_, ?_⟩
  · intro sk hsk
    have hsocks : ((fillSlots s).1).sockets = s.sockets.map (fun sk =>
        if sk.sockId ∈ ((waitingSorted s).take (s.maxConcurrent - activeCount s)).map (·.sockId)
        then { sk with state := some AState.active } else sk) := by
      rw [hfse]
    have hf : ∀ x : Socket, ((fun sk =>
        if sk.sockId ∈ ((waitingSorted s).take (s.maxConcurrent - activeCount s)).map (·.sockId)
        then { sk with state := some AState.active } else sk) x).sockId = x.sockId := by
      intro x
      dsimp only
      split <;> rfl
    have hstate : stateOf (fillSlots s).1 sk.sockId =
        (if sk.sockId ∈ ((waitingSorted s).take (s.maxConcurrent - activeCount s)).map (·.sockId)
         then ({ sk with state := some AState.active } : Socket) else sk).state := by
      show stateInList ((fillSlots s).1).sockets sk.sockId = _
      rw [hsocks, stateInList_map s.sockets _ hf hnodup sk hsk]
    constructor
    · rintro ⟨hopen, hrole, hstw, hact⟩
      rw [hstate] at hact
      by_cases hin : sk.sockId ∈
          ((waitingSorted s).take (s.maxConcurrent - activeCount s)).map (·.sockId)
      · rcases List.mem_map.1 hin with ⟨q, hq, hqid⟩
        have hqwl : q ∈ waitingList s :=
          hperm.subset (List.take_subset _ _ hq)
        have hqmem : q ∈ s.sockets := (mem_waitingList.1 hqwl).1
        rw [List.inj_on_of_nodup_map hnodup hqmem hsk hqid] at hq
        exact hq
      · rw [if_neg hin] at hact
        rw [hstw] at hact
        exact absurd hact (by simp)
    · intro hin
      have hwl : sk ∈ waitingList s := hperm.subset (List.take_subset _ _ hin)
      obtain ⟨hmem, hopen, hrole, hstw⟩ := mem_waitingList.1 hwl
      refine ⟨List.mem_filter.2 ⟨hmem, by simp [hopen]⟩, hrole, hstw, ?_⟩
      rw [hstate, if_pos (List.mem_map_of_mem (·.sockId) hin)]
  · rw [List.length_take, hperm.length_eq]
  · intro p hp q hq hqn
    have hqS : q ∈ waitingSorted s := hperm.mem_iff.mpr hq
    have hsplit : q ∈ (waitingSorted s).take (s.maxConcurrent - activeCount s) ++
        (waitingSorted s).drop (s.maxConcurrent - activeCount s) := by
      rw [List.take_append_drop]
      exact hqS
    rcases List.mem_append.1 hsplit with h | h
    · exact absurd h hqn
    · exact (sortJoined_sorted (waitingList s)).rel_of_mem_take_of_mem_drop hp h

/-- Witness for C4's amended statement: a room with one offerer, one free
slot and one waiting receiver promotes that receiver. -/
theorem C4_amended_witness :
    promotedIn
      { sockets := [{ sockId := 0, cid := "o", role := Role.offerer, state := none,
                      joinedAt := 0, isOpen := true },
                    { sockId := 1, cid := "w", role := Role.answerer,
                      state := some AState.waiting, joinedAt := 5, isOpen := true }],
        activePairs := [], maxConcurrent := 1, creatorCid := none, nextId := 2 }
      (fillSlots
        { sockets := [{ sockId := 0, cid := "o", role := Role.offerer, state := none,
                        joinedAt := 0, isOpen := true },
                      { sockId := 1, cid := "w", role := Role.answerer,
                        state := some AState.waiting, joinedAt := 5, isOpen := true }],
          activePairs := [], maxConcurrent := 1, creatorCid := none, nextId := 2 }).1
      { sockId := 1, cid := "w", role := Role.answerer,
        state := some AState.waiting, joinedAt := 5, isOpen := true } :=
  ((C4_fifo_promotion_amended
      { sockets := [{ sockId := 0, cid := "o", role := Role.offerer, state := none,
                      joinedAt := 0, isOpen := true },
                    { sockId := 1, cid := "w", role := Role.answerer,
                      state := some AState.waiting, joinedAt := 5, isOpen := true }],
        activePairs := [], maxConcurrent := 1, creatorCid := none, nextId := 2 }
      { sockId := 0, cid := "o", role := Role.offerer, state := none,
        joinedAt := 0, isOpen := true }
      (by decide) (by decide) (by decide) (by decide)).1
    { sockId := 1, cid := "w", role := Role.answerer,
      state := some AState.waiting, joinedAt := 5, isOpen := true }
    (by decide)).mpr (by decide)

end Pairlane

namespace Pairlane

/-! ### List-level facts about the Room operations -/

/-- Identity-preserving maps keep the identity list. -/
theorem map_sockId_comm (l : List Socket) (f : Socket → Socket)
    (hf : ∀ x, (f x).sockId = x.sockId) :
    (l.map f).map (·.sockId) = l.map (·.sockId) := by
  rw [List.map_map]
  have : ((·.sockId) ∘ f) = fun sk : Socket => sk.sockId := by
    funext x
    simp [Function.comp, hf]
  rw [this]

/-- Open sockets after evicting a cid are the open sockets of other cids. -/
theorem openList_closeAll (l : List Socket) (c : String) :
    openList (closeAllWithCid l c) = (openList l).filter (fun sk => !decide (sk.cid = c)) := by
  induction l with
  | nil => rfl
  | cons x l ih =>
    by_cases hx : x.isOpen = true
    · by_cases hc : x.cid = c
      · simp [closeAllWithCid, openList, List.filter_cons, hx, hc] at ih ⊢
        exact ih
      · simp [closeAllWithCid, openList, List.filter_cons, hx, hc] at ih ⊢
        exact ih
    · simp [closeAllWithCid, openList, List.filter_cons, hx,
        Bool.not_eq_true] at ih ⊢
      exact ih

/-- Open sockets after marking one identity closed. -/
theorem openList_markClosed (l : List Socket) (i : Nat) :
    openList (markClosed l i) = (openList l).filter (fun sk => !decide (sk.sockId = i)) := by
  induction l with
  | nil => rfl
  | cons x l ih =>
    by_cases hx : x.isOpen = true
    · by_cases hi : x.sockId = i
      · simp [markClosed, openList, List.filter_cons, hx, hi] at ih ⊢
        exact ih
      · simp [markClosed, openList, List.filter_cons, hx, hi] at ih ⊢
        exact ih
    · by_cases hi : x.sockId = i
      · simp [markClosed, openList, List.filter_cons, hx, hi, Bool.not_eq_true] at ih ⊢
        exact ih
      · simp [markClosed, openList, List.filter_cons, hx, hi, Bool.not_eq_true] at ih ⊢
        exact ih

/-- Open sockets commute with openness-preserving maps. -/
theorem openList_map (l : List Socket) (f : Socket → Socket)
    (hf : ∀ x, (f x).isOpen = x.isOpen) :
    openList (l.map f) = (openList l).map f := by
  induction l with
  | nil => rfl
  | cons x l ih =>
    by_cases hx : x.isOpen = true
    · simp [openList, List.filter_cons, hx, hf] at ih ⊢
      exact ih
    · simp [openList, List.filter_cons, hx, hf, Bool.not_eq_true] at ih ⊢
      exact ih

/-- Open sockets of an extended list. -/
theorem openList_append (l₁ l₂ : List Socket) :
    openList (l₁ ++ l₂) = openList l₁ ++ openList l₂ := by
  simp [openList]

/-- The concurrency count as a `countP` over all sockets. -/
theorem activeCount_eq_countP (s : RoomState) :
    activeCount s = s.sockets.countP isActiveOpen := by
  rw [activeCount, answererSockets, openSockets, openList, List.filter_filter,
    List.filter_filter, ← List.countP_eq_length_filter]
  apply List.countP_congr
  intro sk _
  simp [isActiveOpen, Bool.and_comm, Bool.and_left_comm, Bool.and_assoc]

end Pairlane

namespace Pairlane

/-! ### Facts about the activePairs association list -/

/-- Setting a key makes it look up to the new value. -/
theorem lookupPair_setPair_self (ps : List (String × String)) (a o : String) :
    lookupPair (setPair ps a o) a = some o := by
  simp [lookupPair, setPair]

/-- `find?` is unaffected by filtering with a weaker predicate. -/
theorem find?_filter_of_imp {α : Type} (l : List α) (p q : α → Bool)
    (h : ∀ x, p x = true → q x = true) :
    (l.filter q).find? p = l.find? p := by
  induction l with
  | nil => rfl
  | cons x l ih =>
    by_cases hq : q x = true
    · by_cases hp : p x = true
      · simp [List.filter_cons, hq, List.find?_cons, hp]
      · simp only [List.filter_cons, hq, if_true, List.find?_cons]
        simp only [Bool.not_eq_true] at hp
        simp [hp, ih]
    · have hp : ¬ p x = true := fun hpx => hq (h x hpx)
      simp only [List.filter_cons, hq, if_false, List.find?_cons]
      simp only [Bool.not_eq_true] at hp
      simp [hp, ih]

/-- Setting one key leaves other keys' lookups unchanged. -/
theorem lookupPair_setPair_ne (ps : List (String × String)) (a o b : String) (h : ¬ b = a) :
    lookupPair (setPair ps a o) b = lookupPair ps b := by
  simp only [lookupPair, setPair]
  rw [List.find?_cons_of_neg _ (by simpa using fun hab : a = b => h hab.symm)]
  rw [find?_filter_of_imp]
  intro x hx
  simp only [decide_eq_true_eq] at hx ⊢
  rw [hx]
  exact h

/-- Deleting one key leaves other keys' lookups unchanged. -/
theorem lookupPair_delPair_ne (ps : List (String × String)) (a b : String) (h : ¬ b = a) :
    lookupPair (delPair ps a) b = lookupPair ps b := by
  simp only [lookupPair, delPair]
  rw [find?_filter_of_imp]
  intro x hx
  simp only [decide_eq_true_eq] at hx ⊢
  rw [hx]
  exact h

/-- A key looks up to something iff some entry carries it. -/
theorem lookupPair_isSome_iff (ps : List (String × String)) (a : String) :
    (lookupPair ps a).isSome = true ↔ ∃ p ∈ ps, p.1 = a := by
  simp [lookupPair, List.find?_isSome]

/-- A successful lookup exhibits its entry. -/
theorem mem_of_lookupPair (ps : List (String × String)) (a o : String)
    (h : lookupPair ps a = some o) : (a, o) ∈ ps := by
  unfold lookupPair at h
  cases hf : ps.find? (fun p => decide (p.1 = a)) with
  | none => rw [hf] at h; simp at h
  | some p =>
    rw [hf] at h
    simp only [Option.map_some', Option.some.injEq] at h
    have h1 : p ∈ ps := List.mem_of_find?_eq_some hf
    have h2 : p.1 = a := by simpa using List.find?_some hf
    have : (a, o) = p := by
      cases p
      simp only [Prod.mk.injEq]
      exact ⟨h2.symm, h.symm⟩
    rw [this]
    exact h1

/-- Entries after a set. -/
theorem mem_setPair (ps : List (String × String)) (a o : String) (p : String × String)
    (h : p ∈ setPair ps a o) : p = (a, o) ∨ (p ∈ ps ∧ ¬ p.1 = a) := by
  simp only [setPair, List.mem_cons, List.mem_filter, decide_eq_true_eq] at h
  exact h

/-- Entries after a delete. -/
theorem mem_delPair (ps : List (String × String)) (a : String) (p : String × String)
    (h : p ∈ delPair ps a) : p ∈ ps ∧ ¬ p.1 = a := by
  simp only [delPair, List.mem_filter, decide_eq_true_eq] at h
  exact h

/-- Entries after the pairing fold of `fillSlots`. -/
theorem foldPairs_mem (T : List Socket) (o : String) :
    ∀ (ps : List (String × String)) (p : String × String),
      p ∈ T.foldl (fun ps sk => if sk.cid ≠ "" then setPair ps sk.cid o else ps) ps →
      p ∈ ps ∨ ∃ sk ∈ T, p = (sk.cid, o) ∧ ¬ sk.cid = "" := by
  induction T with
  | nil => intro ps p h; exact Or.inl h
  | cons sk T ih =>
    intro ps p h
    rw [List.foldl_cons] at h
    rcases ih _ p h with h1 | ⟨sk', hsk', h2, h3⟩
    · by_cases hc : sk.cid ≠ ""
      · rw [if_pos hc] at h1
        rcases mem_setPair _ _ _ _ h1 with h2 | ⟨h2, _⟩
        · exact Or.inr ⟨sk, List.mem_cons_self sk T, h2, hc⟩
        · exact Or.inl h2
      · rw [if_neg hc] at h1
        exact Or.inl h1
    · exact Or.inr ⟨sk', List.mem_cons_of_mem sk hsk', h2, h3⟩

/-- The pairing fold preserves key presence. -/
theorem foldPairs_isSome_mono (T : List Socket) (o : String) :
    ∀ (ps : List (String × String)) (b : String), (lookupPair ps b).isSome = true →
      (lookupPair (T.foldl (fun ps sk => if sk.cid ≠ "" then setPair ps sk.cid o else ps) ps)
        b).isSome = true := by
  induction T with
  | nil => intro ps b h; exact h
  | cons sk T ih =>
    intro ps b h
    rw [List.foldl_cons]
    apply ih
    by_cases hc : sk.cid ≠ ""
    · rw [if_pos hc]
      by_cases hb : b = sk.cid
      · rw [hb, lookupPair_setPair_self]; rfl
      · rw [lookupPair_setPair_ne _ _ _ _ hb]; exact h
    · rw [if_neg hc]; exact h

/-- The pairing fold records every promoted cid. -/
theorem foldPairs_isSome_of_mem (T : List Socket) (o : String) :
    ∀ (ps : List (String × String)) (sk : Socket), sk ∈ T → ¬ sk.cid = "" →
      (lookupPair (T.foldl (fun ps sk => if sk.cid ≠ "" then setPair ps sk.cid o else ps) ps)
        sk.cid).isSome = true := by
  induction T with
  | nil => intro ps sk h; exact absurd h (List.not_mem_nil sk)
  | cons hd T ih =>
    intro ps sk hmem hc
    rw [List.foldl_cons]
    rcases List.mem_cons.1 hmem with h | h
    · subst h
      apply foldPairs_isSome_mono
      rw [if_pos hc, lookupPair_setPair_self]
      rfl
    · exact ih _ sk h hc

/-! ### Counting promoted sockets -/

/-- The promotion map adds at most one active per promoted identity. -/
theorem countP_upd_le (ids : List Nat) (l : List Socket) (p : Socket → Bool) :
    (l.map (fun sk =>
      if sk.sockId ∈ ids then { sk with state := some AState.active } else sk)).countP p ≤
      l.countP p + l.countP (fun sk => decide (sk.sockId ∈ ids)) := by
  induction l with
  | nil => simp
  | cons x l ih =>
    rw [List.map_cons, List.countP_cons, List.countP_cons, List.countP_cons]
    have hsplit : (if decide (x.sockId ∈ ids) then 1 else 0) =
        (if x.sockId ∈ ids then (1 : Nat) else 0) := by
      by_cases hx : x.sockId ∈ ids <;> simp [hx]
    rw [hsplit]
    by_cases hx : x.sockId ∈ ids
    · simp only [hx, if_true]
      by_cases hp1 : p { x with state := some AState.active } = true
      · rw [if_pos hp1]
        by_cases hp2 : p x = true
        · rw [if_pos hp2]; omega
        · rw [if_neg hp2]; omega
      · rw [if_neg hp1]
        by_cases hp2 : p x = true
        · rw [if_pos hp2]; omega
        · rw [if_neg hp2]; omega
    · simp only [hx, if_false]
      omega

/-- With distinct identities, at most `|ids|` sockets carry a listed
identity. -/
theorem countP_mem_ids_le (l : List Socket) (ids : List Nat)
    (hnodup : (l.map (·.sockId)).Nodup) :
    l.countP (fun sk => decide (sk.sockId ∈ ids)) ≤ ids.length := by
  rw [List.countP_eq_length_filter]
  have h1 : ((l.filter (fun sk => decide (sk.sockId ∈ ids))).map (·.sockId)).Nodup :=
    hnodup.sublist ((List.filter_sublist l).map (·.sockId))
  have h2 : ∀ a ∈ (l.filter (fun sk => decide (sk.sockId ∈ ids))).map (·.sockId), a ∈ ids := by
    intro a ha
    rcases List.mem_map.1 ha with ⟨sk, hsk, rfl⟩
    have := (List.mem_filter.1 hsk).2
    simpa using this
  calc (l.filter (fun sk => decide (sk.sockId ∈ ids))).length
      = ((l.filter (fun sk => decide (sk.sockId ∈ ids))).map (·.sockId)).length := by
        rw [List.length_map]
    _ = ((l.filter (fun sk => decide (sk.sockId ∈ ids))).map (·.sockId)).toFinset.card :=
        (List.toFinset_card_of_nodup h1).symm
    _ ≤ ids.toFinset.card := by
        apply Finset.card_le_card
        intro a ha
        exact List.mem_toFinset.2 (h2 a (List.mem_toFinset.1 ha))
    _ ≤ ids.length := by simpa using List.toFinset_card_le ids

end Pairlane

namespace Pairlane

/-- The offerer returned by `getOffererSocket` is an open offerer. -/
theorem getOffererSocket_mem {s : RoomState} {off : Socket}
    (h : getOffererSocket s = some off) :
    off ∈ openSockets s ∧ off.role = Role.offerer :=
  ⟨List.mem_of_find?_eq_some h, by simpa using List.find?_some h⟩

/-- `getOffererSocket` succeeds iff an open offerer exists. -/
theorem getOffererSocket_isSome_iff {s : RoomState} :
    (getOffererSocket s).isSome = true ↔ ∃ sk ∈ openSockets s, sk.role = Role.offerer := by
  simp [getOffererSocket, List.find?_isSome]

/-- Open-socket membership unfolded. -/
theorem mem_openSockets_iff {s : RoomState} {sk : Socket} :
    sk ∈ openSockets s ↔ sk ∈ s.sockets ∧ sk.isOpen = true := by
  simp [openSockets, openList, List.mem_filter]

/-- The waiting queue sits inside the open sockets of the room. -/
theorem take_waitingSorted_mem {s : RoomState} {n : Nat} {sk : Socket}
    (h : sk ∈ (waitingSorted s).take n) : sk ∈ waitingList s :=
  (sortJoined_perm (waitingList s)).subset (List.take_subset n _ h)

/-- `fillSlots` preserves the Room invariant. -/
theorem inv_fillSlots (s : RoomState) (hinv : Inv s) : Inv (fillSlots s).1 := by
  obtain ⟨h1, h2, h3, h4, h5, h6, h7, h8, h9, h10⟩ := hinv
  cases hoff : getOffererSocket s with
  | none =>
    rw [show (fillSlots s).1 = s from by simp [fillSlots, hoff]]
    exact ⟨h1, h2, h3, h4, h5, h6, h7, h8, h9, h10⟩
  | some off =>
    by_cases hcid : off.cid = ""
    · rw [show (fillSlots s).1 = s from by simp [fillSlots, hoff, hcid]]
      exact ⟨h1, h2, h3, h4, h5, h6, h7, h8, h9, h10⟩
    · by_cases hfull : s.maxConcurrent ≤ activeCount s
      · rw [show (fillSlots s).1 = s from by simp [fillSlots, hoff, hcid, hfull]]
        exact ⟨h1, h2, h3, h4, h5, h6, h7, h8, h9, h10⟩
      · rw [fillSlots_eq s off hoff hcid hfull]
        have hfId : ∀ x : Socket, ((fun sk =>
            if sk.sockId ∈ ((waitingSorted s).take (s.maxConcurrent - activeCount s)).map (·.sockId)
            then { sk with state := some AState.active } else sk) x).sockId = x.sockId := by
          intro x; dsimp only; split <;> rfl
        have hfOpen : ∀ x : Socket, ((fun sk =>
            if sk.sockId ∈ ((waitingSorted s).take (s.maxConcurrent - activeCount s)).map (·.sockId)
            then { sk with state := some AState.active } else sk) x).isOpen = x.isOpen := by
          intro x; dsimp only; split <;> rfl
        have hfRole : ∀ x : Socket, ((fun sk =>
            if sk.sockId ∈ ((waitingSorted s).take (s.maxConcurrent - activeCount s)).map (·.sockId)
            then { sk with state := some AState.active } else sk) x).role = x.role := by
          intro x; dsimp only; split <;> rfl
        have hfCid : ∀ x : Socket, ((fun sk =>
            if sk.sockId ∈ ((waitingSorted s).take (s.maxConcurrent - activeCount s)).map (·.sockId)
            then { sk with state := some AState.active } else sk) x).cid = x.cid := by
          intro x; dsimp only; split <;> rfl
        have hopenmap : ∀ sk : Socket, sk ∈ openList (s.sockets.map (fun sk =>
            if sk.sockId ∈ ((waitingSorted s).take (s.maxConcurrent - activeCount s)).map (·.sockId)
            then { sk with state := some AState.active } else sk)) ↔
            ∃ x ∈ openSockets s, (fun sk =>
              if sk.sockId ∈ ((waitingSorted s).take (s.maxConcurrent - activeCount s)).map (·.sockId)
              then { sk with state := some AState.active } else sk) x = sk := by
          intro sk
          rw [openList_map _ _ hfOpen]
          exact List.mem_map
        have hoffmem := getOffererSocket_mem hoff
        refine ⟨?_, ?_, ?_, ?_, ?_, ?_, ?_, ?_, ?_, ?_⟩
        · dsimp only
          rw [map_sockId_comm _ _ hfId]
          exact h1
        · intro sk hsk
          rcases List.mem_map.1 hsk with ⟨x, hx, rfl⟩
          rw [hfId]
          exact h2 x hx
        · intro sk1 hsk1 sk2 hsk2 hr1 hr2
          rcases (hopenmap sk1).1 hsk1 with ⟨x1, hx1, rfl⟩
          rcases (hopenmap sk2).1 hsk2 with ⟨x2, hx2, rfl⟩
          rw [hfRole] at hr1 hr2
          rw [h3 x1 hx1 x2 hx2 hr1 hr2]
        · intro cc hcc hccne sk hsk hrole
          rcases (hopenmap sk).1 hsk with ⟨x, hx, rfl⟩
          rw [hfRole] at hrole
          rw [hfCid]
          exact h4 cc hcc hccne x hx hrole
        · intro p _
          refine ⟨(fun sk =>
            if sk.sockId ∈ ((waitingSorted s).take (s.maxConcurrent - activeCount s)).map (·.sockId)
            then { sk with state := some AState.active } else sk) off, ?_, ?_⟩
          · exact (hopenmap _).2 ⟨off, hoffmem.1, rfl⟩
          · rw [hfRole]; exact hoffmem.2
        · intro p hp sk hsk hrole
          rcases (hopenmap sk).1 hsk with ⟨x, hx, rfl⟩
          rw [hfRole] at hrole
          rw [hfCid]
          rcases foldPairs_mem _ _ _ _ hp with hold | ⟨q, _, rfl, _⟩
          · exact h6 p hold x hx hrole
          · exact congrArg Socket.cid (h3 x hx off hoffmem.1 hrole hoffmem.2)
        · intro sk hsk hrole hact hcidne
          rcases (hopenmap sk).1 hsk with ⟨x, hx, rfl⟩
          rw [hfRole] at hrole
          rw [hfCid] at hcidne ⊢
          by_cases hxin : x.sockId ∈
              ((waitingSorted s).take (s.maxConcurrent - activeCount s)).map (·.sockId)
          · rcases List.mem_map.1 hxin with ⟨q, hq, hqid⟩
            have hqwl := take_waitingSorted_mem hq
            have hqmem : q ∈ s.sockets := (mem_waitingList.1 hqwl).1
            have hxmem : x ∈ s.sockets := (mem_openSockets_iff.1 hx).1
            have hqx : q = x := List.inj_on_of_nodup_map h1 hqmem hxmem hqid
            rw [hqx] at hq
            exact foldPairs_isSome_of_mem _ _ _ x hq hcidne
          · have hfx : (fun sk =>
                if sk.sockId ∈ ((waitingSorted s).take (s.maxConcurrent - activeCount s)).map (·.sockId)
                then { sk with state := some AState.active } else sk) x = x := if_neg hxin
            rw [hfx] at hact
            exact foldPairs_isSome_mono _ _ _ _ (h7 x hx hrole hact hcidne)
        · intro p hp
          rcases foldPairs_mem _ _ _ _ hp with hold | ⟨q, hq, rfl, _⟩
          · rcases h8 p hold with ⟨sk, hmem, hcideq⟩
            refine ⟨_, (hopenmap _).2 ⟨sk, hmem, rfl⟩, ?_⟩
            rw [hfCid]
            exact hcideq
          · have hqwl := take_waitingSorted_mem hq
            have hqopen : q ∈ openSockets s := by
              obtain ⟨hm, ho, _, _⟩ := mem_waitingList.1 hqwl
              exact mem_openSockets_iff.2 ⟨hm, ho⟩
            refine ⟨_, (hopenmap _).2 ⟨q, hqopen, rfl⟩, ?_⟩
            rw [hfCid]
        · intro p hp
          rcases foldPairs_mem _ _ _ _ hp with hold | ⟨q, _, rfl, hqne⟩
          · exact h9 p hold
          · exact hqne
        · show activeCount _ ≤ s.maxConcurrent
          rw [activeCount_eq_countP]
          calc (s.sockets.map _).countP isActiveOpen
              ≤ s.sockets.countP isActiveOpen + s.sockets.countP (fun sk =>
                  decide (sk.sockId ∈
                    ((waitingSorted s).take (s.maxConcurrent - activeCount s)).map (·.sockId))) :=
                countP_upd_le _ _ _
            _ ≤ s.sockets.countP isActiveOpen +
                (((waitingSorted s).take (s.maxConcurrent - activeCount s)).map (·.sockId)).length :=
                Nat.add_le_add_left (countP_mem_ids_le _ _ h1) _
            _ ≤ s.maxConcurrent := by
                rw [List.length_map, ← activeCount_eq_countP]
                have := List.length_take_le (s.maxConcurrent - activeCount s) (waitingSorted s)
                omega

end Pairlane

namespace Pairlane

/-- Sufficient conditions under which admission assigns the offerer role. -/
theorem pickRole_offerer_of (t : RoomState) (c : String)
    (hno : ¬ ∃ sk ∈ openSockets t, sk.role = Role.offerer)
    (hcr : ∀ cc, t.creatorCid = some cc → ¬ cc = "" → c = cc) :
    pickRole t c = Role.offerer := by
  have hsome : ¬ (getOffererSocket t).isSome = true := by
    intro h
    exact hno (getOffererSocket_isSome_iff.1 h)
  unfold pickRole
  cases hcc : t.creatorCid with
  | none => simp [hsome]
  | some cc =>
    by_cases hcce : cc = ""
    · simp [hcce, hsome]
    · simp [hcce, hcr cc hcc hcce]

/-- Necessary conditions when admission assigns the offerer role. -/
theorem pickRole_offerer_dest (t : RoomState) (c : String)
    (h : pickRole t c = Role.offerer) :
    (∃ cc, t.creatorCid = some cc ∧ ¬ cc = "" ∧ c = cc) ∨
    ¬ ∃ sk ∈ openSockets t, sk.role = Role.offerer := by
  unfold pickRole at h
  cases hcc : t.creatorCid with
  | none =>
    rw [hcc] at h
    dsimp only at h
    right
    intro hex
    rw [if_pos (getOffererSocket_isSome_iff.2 hex)] at h
    exact absurd h (by decide)
  | some cc =>
    rw [hcc] at h
    dsimp only at h
    by_cases hcce : cc = ""
    · rw [if_pos hcce] at h
      right
      intro hex
      rw [if_pos (getOffererSocket_isSome_iff.2 hex)] at h
      exact absurd h (by decide)
    · rw [if_neg hcce] at h
      by_cases hceq : c = cc
      · exact Or.inl ⟨cc, rfl, hcce, hceq⟩
      · rw [if_neg hceq] at h
        exact absurd h (by decide)

/-- With a non-empty creator pin, only the pinned cid is admitted as
offerer. -/
theorem pickRole_offerer_creator (t : RoomState) (c cc : String)
    (hcc : t.creatorCid = some cc) (hcce : ¬ cc = "")
    (h : pickRole t c = Role.offerer) : c = cc := by
  unfold pickRole at h
  rw [hcc] at h
  dsimp only at h
  rw [if_neg hcce] at h
  by_cases hceq : c = cc
  · exact hceq
  · rw [if_neg hceq] at h
    exact absurd h (by decide)

/-- The state after the admission phase of an upgrade (duplicates evicted,
fresh socket accepted) satisfies the Room invariant. -/
theorem inv_upgrade_mid (s : RoomState) (c : String) (now : Nat) (hinv : Inv s) :
    Inv { s with
      sockets := closeAllWithCid s.sockets c ++
        [{ sockId := s.nextId, cid := c,
           role := pickRole { s with sockets := closeAllWithCid s.sockets c } c,
           state := if pickRole { s with sockets := closeAllWithCid s.sockets c } c = Role.answerer
             then some AState.waiting else none,
           joinedAt := now, isOpen := true }],
      nextId := s.nextId + 1 } := by
  obtain ⟨h1, h2, h3, h4, h5, h6, h7, h8, h9, h10⟩ := hinv
  have hCid : ∀ x : Socket,
      ((fun sk => if sk.isOpen && decide (sk.cid = c) then { sk with isOpen := false } else sk) x).cid
        = x.cid := by
    intro x; dsimp only; split <;> rfl
  have hId : ∀ x : Socket,
      ((fun sk => if sk.isOpen && decide (sk.cid = c) then { sk with isOpen := false } else sk) x).sockId
        = x.sockId := by
    intro x; dsimp only; split <;> rfl
  have hCOpen := openList_closeAll s.sockets c
  have hOpenL : ∀ x : Socket, x ∈ openList (closeAllWithCid s.sockets c) ↔
      x ∈ openSockets s ∧ ¬ x.cid = c := by
    intro x
    rw [hCOpen, List.mem_filter]
    simp [openSockets]
  have hs1open : openSockets { s with sockets := closeAllWithCid s.sockets c } =
      openList (closeAllWithCid s.sockets c) := rfl
  have hnooff_of_evicted : ∀ F ∈ openSockets s, F.role = Role.offerer → F.cid = c →
      ¬ ∃ sk ∈ openSockets { s with sockets := closeAllWithCid s.sockets c },
        sk.role = Role.offerer := by
    intro F hF hFrole hFc hex
    rcases hex with ⟨x, hx, hxrole⟩
    rw [hs1open] at hx
    rcases (hOpenL x).1 hx with ⟨hxopen, hxc⟩
    exact hxc (by rw [h3 x hxopen F hF hxrole hFrole, hFc])
  have hpickF : ∀ F ∈ openSockets s, F.role = Role.offerer → F.cid = c →
      pickRole { s with sockets := closeAllWithCid s.sockets c } c = Role.offerer := by
    intro F hF hFrole hFc
    apply pickRole_offerer_of
    · exact hnooff_of_evicted F hF hFrole hFc
    · intro cc hcc hcce
      have := h4 cc hcc hcce F hF hFrole
      rw [← hFc, this]
  -- notation for the fresh socket
  have hOpen2 : ∀ x : Socket, x ∈ openList (closeAllWithCid s.sockets c ++
      [{ sockId := s.nextId, cid := c,
         role := pickRole { s with sockets := closeAllWithCid s.sockets c } c,
         state := if pickRole { s with sockets := closeAllWithCid s.sockets c } c = Role.answerer
           then some AState.waiting else none,
         joinedAt := now, isOpen := true }]) ↔
      (x ∈ openSockets s ∧ ¬ x.cid = c) ∨
        x = { sockId := s.nextId, cid := c,
              role := pickRole { s with sockets := closeAllWithCid s.sockets c } c,
              state := if pickRole { s with sockets := closeAllWithCid s.sockets c } c =
                  Role.answerer
                then some AState.waiting else none,
              joinedAt := now, isOpen := true } := by
    intro x
    rw [openList_append, List.mem_append]
    constructor
    · rintro (h | h)
      · exact Or.inl ((hOpenL x).1 h)
      · right
        simpa [openList] using h
    · rintro (h | h)
      · exact Or.inl ((hOpenL x).2 h)
      · right
        simp [openList, h]
  refine ⟨?_, ?_, ?_, ?_, ?_, ?_, ?_, ?_, ?_, ?_⟩
  · dsimp only
    rw [List.map_append, closeAllWithCid, map_sockId_comm _ _ hId]
    rw [List.nodup_append]
    refine ⟨h1, List.nodup_singleton _, ?_⟩
    intro a ha hb
    simp only [List.map_cons, List.map_nil, List.mem_singleton] at hb
    rcases List.mem_map.1 ha with ⟨x, hx, rfl⟩
    exact absurd (hb ▸ h2 x hx) (lt_irrefl _)
  · intro sk hsk
    dsimp only at hsk ⊢
    rcases List.mem_append.1 hsk with h | h
    · rcases List.mem_map.1 h with ⟨x, hx, rfl⟩
      rw [hId]
      exact Nat.lt_succ_of_lt (h2 x hx)
    · rcases List.mem_singleton.1 h with rfl
      exact Nat.lt_succ_self _
  · intro sk1 hsk1 sk2 hsk2 hr1 hr2
    rcases (hOpen2 sk1).1 hsk1 with ⟨ho1, hc1⟩ | rfl <;>
      rcases (hOpen2 sk2).1 hsk2 with ⟨ho2, hc2⟩ | rfl
    · exact h3 sk1 ho1 sk2 ho2 hr1 hr2
    · exfalso
      rcases pickRole_offerer_dest _ _ hr2 with ⟨cc, hcc, hcce, hceq⟩ | hno
      · exact hc1 (by rw [h4 cc hcc hcce sk1 ho1 hr1, hceq])
      · exact hno ⟨sk1, (hOpenL sk1).2 ⟨ho1, hc1⟩, hr1⟩
    · exfalso
      rcases pickRole_offerer_dest _ _ hr1 with ⟨cc, hcc, hcce, hceq⟩ | hno
      · exact hc2 (by rw [h4 cc hcc hcce sk2 ho2 hr2, hceq])
      · exact hno ⟨sk2, (hOpenL sk2).2 ⟨ho2, hc2⟩, hr2⟩
    · rfl
  · intro cc hcc hcce sk hsk hrole
    rcases (hOpen2 sk).1 hsk with ⟨ho, _⟩ | rfl
    · exact h4 cc hcc hcce sk ho hrole
    · exact pickRole_offerer_creator { s with sockets := closeAllWithCid s.sockets c }
        c cc hcc hcce hrole
  · intro p hp
    rcases h5 p hp with ⟨F, hFopen, hFrole⟩
    by_cases hFc : F.cid = c
    · exact ⟨_, (hOpen2 _).2 (Or.inr rfl), hpickF F hFopen hFrole hFc⟩
    · exact ⟨F, (hOpen2 F).2 (Or.inl ⟨hFopen, hFc⟩), hFrole⟩
  · intro p hp sk hsk hrole
    rcases (hOpen2 sk).1 hsk with ⟨ho, hc⟩ | rfl
    · exact h6 p hp sk ho hrole
    · rcases h5 p hp with ⟨F, hFopen, hFrole⟩
      have hFcid := h6 p hp F hFopen hFrole
      by_cases hFc : F.cid = c
      · show c = p.2
        rw [← hFcid]
        exact hFc.symm
      · exfalso
        rcases pickRole_offerer_dest _ _ hrole with ⟨cc, hcc, hcce, hceq⟩ | hno
        · exact hFc (by rw [h4 cc hcc hcce F hFopen hFrole, ← hceq])
        · exact hno ⟨F, (hOpenL F).2 ⟨hFopen, hFc⟩, hFrole⟩
  · intro sk hsk hrole hact hcidne
    rcases (hOpen2 sk).1 hsk with ⟨ho, _⟩ | rfl
    · exact h7 sk ho hrole hact hcidne
    · exfalso
      dsimp only at hact
      split at hact <;> simp_all
  · intro p hp
    rcases h8 p hp with ⟨sk, hskopen, hcideq⟩
    by_cases hc : sk.cid = c
    · refine ⟨_, (hOpen2 _).2 (Or.inr rfl), ?_⟩
      show c = p.1
      rw [← hc]
      exact hcideq
    · exact ⟨sk, (hOpen2 sk).2 (Or.inl ⟨hskopen, hc⟩), hcideq⟩
  · exact h9
  · rw [activeCount_eq_countP]
    dsimp only
    rw [List.countP_append]
    have hclose : (closeAllWithCid s.sockets c).countP isActiveOpen ≤
        s.sockets.countP isActiveOpen := by
      rw [closeAllWithCid, List.countP_map]
      apply List.countP_mono_left
      intro x _ hx
      simp only [Function.comp] at hx
      by_cases hcond : (x.isOpen && decide (x.cid = c)) = true
      · rw [if_pos hcond] at hx
        simp [isActiveOpen] at hx
      · rw [if_neg hcond] at hx
        exact hx
    have hnew : ([{ sockId := s.nextId, cid := c,
                    role := pickRole { s with sockets := closeAllWithCid s.sockets c } c,
                    state := if pickRole { s with sockets := closeAllWithCid s.sockets c } c =
                        Role.answerer
                      then some AState.waiting else none,
                    joinedAt := now, isOpen := true }] : List Socket).countP isActiveOpen = 0 := by
      by_cases hr : pickRole { s with sockets := closeAllWithCid s.sockets c } c = Role.answerer <;>
        simp [List.countP_cons, isActiveOpen, hr]
    rw [hnew]
    rw [activeCount_eq_countP] at h10
    omega

end Pairlane

namespace Pairlane

/-- A full upgrade preserves the Room invariant. -/
theorem inv_stepUpgrade (s : RoomState) (c : String) (now : Nat) (hinv : Inv s) :
    Inv (stepUpgrade s c now).1 :=
  inv_fillSlots _ (inv_upgrade_mid s c now hinv)

/-- `hasOpenSocket` unfolded. -/
theorem hasOpenSocket_iff {s : RoomState} {c : String} {r : Role} :
    hasOpenSocket s c r = true ↔ ∃ sk ∈ openSockets s, sk.cid = c ∧ sk.role = r := by
  simp [hasOpenSocket, List.any_eq_true]

/-- Marking a receiver done preserves the Room invariant. -/
theorem inv_setDone (s : RoomState) (j : Nat) (hinv : Inv s) :
    Inv { s with sockets := setStateById s.sockets j AState.done } := by
  obtain ⟨h1, h2, h3, h4, h5, h6, h7, h8, h9, h10⟩ := hinv
  have hId : ∀ x : Socket,
      ((fun sk => if sk.sockId = j then { sk with state := some AState.done } else sk) x).sockId
        = x.sockId := by
    intro x; dsimp only; split <;> rfl
  have hOpen : ∀ x : Socket,
      ((fun sk => if sk.sockId = j then { sk with state := some AState.done } else sk) x).isOpen
        = x.isOpen := by
    intro x; dsimp only; split <;> rfl
  have hRole : ∀ x : Socket,
      ((fun sk => if sk.sockId = j then { sk with state := some AState.done } else sk) x).role
        = x.role := by
    intro x; dsimp only; split <;> rfl
  have hCid : ∀ x : Socket,
      ((fun sk => if sk.sockId = j then { sk with state := some AState.done } else sk) x).cid
        = x.cid := by
    intro x; dsimp only; split <;> rfl
  have hmem : ∀ sk : Socket, sk ∈ openList (setStateById s.sockets j AState.done) ↔
      ∃ x ∈ openSockets s,
        (fun sk => if sk.sockId = j then { sk with state := some AState.done } else sk) x = sk := by
    intro sk
    rw [setStateById, openList_map _ _ hOpen]
    exact List.mem_map
  refine ⟨?_, ?_, ?_, ?_, ?_, ?_, ?_, ?_, ?_, ?_⟩
  · dsimp only
    rw [setStateById, map_sockId_comm _ _ hId]
    exact h1
  · intro sk hsk
    rcases List.mem_map.1 hsk with ⟨x, hx, rfl⟩
    rw [hId]
    exact h2 x hx
  · intro sk1 hsk1 sk2 hsk2 hr1 hr2
    rcases (hmem sk1).1 hsk1 with ⟨x1, hx1, rfl⟩
    rcases (hmem sk2).1 hsk2 with ⟨x2, hx2, rfl⟩
    rw [hRole] at hr1 hr2
    rw [h3 x1 hx1 x2 hx2 hr1 hr2]
  · intro cc hcc hcce sk hsk hrole
    rcases (hmem sk).1 hsk with ⟨x, hx, rfl⟩
    rw [hRole] at hrole
    rw [hCid]
    exact h4 cc hcc hcce x hx hrole
  · intro p hp
    rcases h5 p hp with ⟨F, hF, hFrole⟩
    refine ⟨_, (hmem _).2 ⟨F, hF, rfl⟩, ?_⟩
    rw [hRole]
    exact hFrole
  · intro p hp sk hsk hrole
    rcases (hmem sk).1 hsk with ⟨x, hx, rfl⟩
    rw [hRole] at hrole
    rw [hCid]
    exact h6 p hp x hx hrole
  · intro sk hsk hrole hact hcidne
    rcases (hmem sk).1 hsk with ⟨x, hx, rfl⟩
    rw [hRole] at hrole
    rw [hCid] at hcidne ⊢
    by_cases hxj : x.sockId = j
    · exfalso
      have : (if x.sockId = j then ({ x with state := some AState.done } : Socket) else x).state =
          some AState.active := hact
      rw [if_pos hxj] at this
      simp at this
    · have hact' : x.state = some AState.active := by
        have h0 : (if x.sockId = j then ({ x with state := some AState.done } : Socket) else x).state =
            some AState.active := hact
        rwa [if_neg hxj] at h0
      exact h7 x hx hrole hact' hcidne
  · intro p hp
    rcases h8 p hp with ⟨sk, hsk, hcideq⟩
    refine ⟨_, (hmem _).2 ⟨sk, hsk, rfl⟩, ?_⟩
    rw [hCid]
    exact hcideq
  · exact h9
  · rw [activeCount_eq_countP]
    dsimp only
    rw [setStateById, List.countP_map]
    rw [activeCount_eq_countP] at h10
    refine le_trans (List.countP_mono_left ?_) h10
    intro x _ hx
    simp only [Function.comp] at hx
    by_cases hxj : x.sockId = j
    · rw [if_pos hxj] at hx
      simp [isActiveOpen] at hx
    · rw [if_neg hxj] at hx
      exact hx

/-- The relay branches of the message handler never change Room state. -/
theorem stepMsg_offer_state (s : RoomState) (i : Nat) (dst : String) (sid : Nat) (sdp : String) :
    (stepMsg s i (CMsg.offer dst sid sdp)).1 = s := by
  unfold stepMsg
  cases findSock s i with
  | none => rfl
  | some att =>
    dsimp only
    split
    · cases socketByCid s dst <;> rfl
    · rfl

/-- The answer relay never changes Room state. -/
theorem stepMsg_answer_state (s : RoomState) (i : Nat) (dst : String) (sid : Nat) (sdp : String) :
    (stepMsg s i (CMsg.answer dst sid sdp)).1 = s := by
  unfold stepMsg
  cases findSock s i with
  | none => rfl
  | some att =>
    dsimp only
    split
    · cases socketByCid s dst <;> rfl
    · rfl

/-- The candidate relay never changes Room state. -/
theorem stepMsg_cand_state (s : RoomState) (i : Nat) (dst : String) (sid : Nat) (cd : String) :
    (stepMsg s i (CMsg.cand dst sid cd)).1 = s := by
  unfold stepMsg
  cases findSock s i with
  | none => rfl
  | some att =>
    dsimp only
    split
    · cases socketByCid s dst <;> rfl
    · rfl

/-- Malformed frames never change Room state. -/
theorem stepMsg_malformed_state (s : RoomState) (i : Nat) :
    (stepMsg s i CMsg.malformed).1 = s := by
  unfold stepMsg
  cases findSock s i <;> rfl

/-- Message handling preserves the Room invariant. -/
theorem inv_stepMsg (s : RoomState) (i : Nat) (m : CMsg) (hinv : Inv s) :
    Inv (stepMsg s i m).1 := by
  cases m with
  | offer dst sid sdp => rw [stepMsg_offer_state]; exact hinv
  | answer dst sid sdp => rw [stepMsg_answer_state]; exact hinv
  | cand dst sid cd => rw [stepMsg_cand_state]; exact hinv
  | malformed => rw [stepMsg_malformed_state]; exact hinv
  | transferDone pid =>
    unfold stepMsg
    cases hfind : findSock s i with
    | none => exact hinv
    | some att =>
      dsimp only
      by_cases hrole : att.role = Role.offerer
      · rw [if_pos hrole]
        cases hby : socketByCid s pid with
        | some ps => exact inv_fillSlots _ (inv_setDone s ps.sockId hinv)
        | none => exact inv_fillSlots _ hinv
      · rw [if_neg hrole]
        exact hinv

end Pairlane

namespace Pairlane

/-- Socket closure handling preserves the Room invariant. -/
theorem inv_stepClose (s : RoomState) (i : Nat) (hinv : Inv s) : Inv (stepClose s i).1 := by
  obtain ⟨h1, h2, h3, h4, h5, h6, h7, h8, h9, h10⟩ := hinv
  unfold stepClose
  cases hfind : findSock s i with
  | none => exact ⟨h1, h2, h3, h4, h5, h6, h7, h8, h9, h10⟩
  | some att =>
    have hattmem : att ∈ s.sockets := List.mem_of_find?_eq_some hfind
    have hattid : att.sockId = i := by simpa using List.find?_some hfind
    have hIdM : ∀ x : Socket,
        ((fun sk => if sk.sockId = i then { sk with isOpen := false } else sk) x).sockId
          = x.sockId := by
      intro x; dsimp only; split <;> rfl
    have hopen0 : ∀ x : Socket, x ∈ openList (markClosed s.sockets i) ↔
        x ∈ openSockets s ∧ ¬ x.sockId = i := by
      intro x
      rw [openList_markClosed, List.mem_filter]
      simp [openSockets]
    have hatt_uniq : ∀ x ∈ s.sockets, x.sockId = i → x = att := by
      intro x hx hxi
      exact List.inj_on_of_nodup_map h1 hx hattmem (by rw [hxi, hattid])
    have k1 : ((markClosed s.sockets i).map (·.sockId)).Nodup := by
      rw [markClosed, map_sockId_comm _ _ hIdM]
      exact h1
    have k2 : ∀ sk ∈ markClosed s.sockets i, sk.sockId < s.nextId := by
      intro sk hsk
      rcases List.mem_map.1 (show sk ∈ s.sockets.map _ from hsk) with ⟨x, hx, rfl⟩
      rw [hIdM]
      exact h2 x hx
    have k3 : ∀ sk1 ∈ openList (markClosed s.sockets i), ∀ sk2 ∈ openList (markClosed s.sockets i),
        sk1.role = Role.offerer → sk2.role = Role.offerer → sk1 = sk2 := by
      intro sk1 hs1 sk2 hs2 r1 r2
      exact h3 sk1 ((hopen0 sk1).1 hs1).1 sk2 ((hopen0 sk2).1 hs2).1 r1 r2
    have k4 : ∀ cc, s.creatorCid = some cc → cc ≠ "" →
        ∀ sk ∈ openList (markClosed s.sockets i), sk.role = Role.offerer → sk.cid = cc := by
      intro cc hcc hcce sk hsk hrole
      exact h4 cc hcc hcce sk ((hopen0 sk).1 hsk).1 hrole
    have k10 : (markClosed s.sockets i).countP isActiveOpen ≤ s.maxConcurrent := by
      rw [activeCount_eq_countP] at h10
      refine le_trans ?_ h10
      rw [markClosed, List.countP_map]
      apply List.countP_mono_left
      intro x _ hx
      simp only [Function.comp] at hx
      by_cases hxi : x.sockId = i
      · rw [if_pos hxi] at hx
        simp [isActiveOpen] at hx
      · rw [if_neg hxi] at hx
        exact hx
    dsimp only
    split
    next hrole =>
      have hoff_surv : ∀ p ∈ s.activePairs, ∃ sk ∈ openList (markClosed s.sockets i),
          sk.role = Role.offerer := by
        intro p hp
        rcases h5 p hp with ⟨F, hF, hFrole⟩
        have hFi : ¬ F.sockId = i := by
          intro hFi
          have := hatt_uniq F (mem_openSockets_iff.1 hF).1 hFi
          rw [this] at hFrole
          rw [hrole] at hFrole
          exact absurd hFrole (by decide)
        exact ⟨F, (hopen0 F).2 ⟨hF, hFi⟩, hFrole⟩
      by_cases hrep : (decide (att.cid ≠ "") &&
          hasOpenSocket { s with sockets := markClosed s.sockets i } att.cid Role.answerer) = true
      · rw [if_pos hrep]
        have hrep2 : ∃ sk ∈ openList (markClosed s.sockets i),
            sk.cid = att.cid ∧ sk.role = Role.answerer := by
          have h0 := hrep
          rw [Bool.and_eq_true] at h0
          exact hasOpenSocket_iff.1 h0.2
        refine ⟨k1, k2, k3, k4, hoff_surv, ?_, ?_, ?_, h9, ?_⟩
        · intro p hp sk hsk hskrole
          exact h6 p hp sk ((hopen0 sk).1 hsk).1 hskrole
        · intro sk hsk hskrole hact hcidne
          exact h7 sk ((hopen0 sk).1 hsk).1 hskrole hact hcidne
        · intro p hp
          rcases h8 p hp with ⟨sk, hsk, hcideq⟩
          by_cases hski : sk.sockId = i
          · rcases hrep2 with ⟨rep, hrepmem, hrepcid, _⟩
            refine ⟨rep, hrepmem, ?_⟩
            rw [hrepcid, ← hcideq, hatt_uniq sk (mem_openSockets_iff.1 hsk).1 hski]
          · exact ⟨sk, (hopen0 sk).2 ⟨hsk, hski⟩, hcideq⟩
        · rw [activeCount_eq_countP]
          exact k10
      · rw [if_neg hrep]
        have hnorep : att.cid ≠ "" → ¬ ∃ sk ∈ openList (markClosed s.sockets i),
            sk.cid = att.cid ∧ sk.role = Role.answerer := by
          intro hcid hex
          apply hrep
          rw [Bool.and_eq_true]
          exact ⟨by simpa using hcid, hasOpenSocket_iff.2 hex⟩
        apply inv_fillSlots
        by_cases hcid : att.cid ≠ ""
        · rw [if_pos hcid]
          refine ⟨k1, k2, k3, k4, ?_, ?_, ?_, ?_, ?_, ?_⟩
          · intro p hp
            exact hoff_surv p (mem_delPair _ _ _ hp).1
          · intro p hp sk hsk hskrole
            exact h6 p (mem_delPair _ _ _ hp).1 sk ((hopen0 sk).1 hsk).1 hskrole
          · intro sk hsk hskrole hact hcidne
            rcases (hopen0 sk).1 hsk with ⟨hskopen, hski⟩
            by_cases hsc : sk.cid = att.cid
            · exfalso
              exact hnorep hcid ⟨sk, (hopen0 sk).2 ⟨hskopen, hski⟩, hsc, hskrole⟩
            · rw [lookupPair_delPair_ne _ _ _ hsc]
              exact h7 sk hskopen hskrole hact hcidne
          · intro p hp
            obtain ⟨hpmem, hpkey⟩ := mem_delPair _ _ _ hp
            rcases h8 p hpmem with ⟨sk, hsk, hcideq⟩
            have hski : ¬ sk.sockId = i := by
              intro hski
              apply hpkey
              rw [← hcideq, hatt_uniq sk (mem_openSockets_iff.1 hsk).1 hski]
            exact ⟨sk, (hopen0 sk).2 ⟨hsk, hski⟩, hcideq⟩
          · intro p hp
            exact h9 p (mem_delPair _ _ _ hp).1
          · rw [activeCount_eq_countP]
            exact k10
        · rw [if_neg hcid]
          have hattcid : att.cid = "" := by
            by_contra hc
            exact hcid hc
          refine ⟨k1, k2, k3, k4, hoff_surv, ?_, ?_, ?_, h9, ?_⟩
          · intro p hp sk hsk hskrole
            exact h6 p hp sk ((hopen0 sk).1 hsk).1 hskrole
          · intro sk hsk hskrole hact hcidne
            exact h7 sk ((hopen0 sk).1 hsk).1 hskrole hact hcidne
          · intro p hp
            rcases h8 p hp with ⟨sk, hsk, hcideq⟩
            have hski : ¬ sk.sockId = i := by
              intro hski
              apply h9 p hp
              rw [← hcideq, hatt_uniq sk (mem_openSockets_iff.1 hsk).1 hski, hattcid]
            exact ⟨sk, (hopen0 sk).2 ⟨hsk, hski⟩, hcideq⟩
          · rw [activeCount_eq_countP]
            exact k10
    next hrole =>
      by_cases hrep : (decide (att.cid ≠ "") &&
          hasOpenSocket { s with sockets := markClosed s.sockets i } att.cid Role.offerer) = true
      · rw [if_pos hrep]
        have hrep2 : ∃ sk ∈ openList (markClosed s.sockets i),
            sk.cid = att.cid ∧ sk.role = Role.offerer := by
          have h0 := hrep
          rw [Bool.and_eq_true] at h0
          exact hasOpenSocket_iff.1 h0.2
        refine ⟨k1, k2, k3, k4, ?_, ?_, ?_, ?_, h9, ?_⟩
        · intro p _
          rcases hrep2 with ⟨rep, hrepmem, _, hreprole⟩
          exact ⟨rep, hrepmem, hreprole⟩
        · intro p hp sk hsk hskrole
          exact h6 p hp sk ((hopen0 sk).1 hsk).1 hskrole
        · intro sk hsk hskrole hact hcidne
          exact h7 sk ((hopen0 sk).1 hsk).1 hskrole hact hcidne
        · intro p hp
          rcases h8 p hp with ⟨sk, hsk, hcideq⟩
          by_cases hski : sk.sockId = i
          · rcases hrep2 with ⟨rep, hrepmem, hrepcid, _⟩
            refine ⟨rep, hrepmem, ?_⟩
            rw [hrepcid, ← hcideq, hatt_uniq sk (mem_openSockets_iff.1 hsk).1 hski]
          · exact ⟨sk, (hopen0 sk).2 ⟨hsk, hski⟩, hcideq⟩
        · rw [activeCount_eq_countP]
          exact k10
      · rw [if_neg hrep]
        have hWOpen : ∀ x : Socket,
            ((fun sk => if sk.isOpen && decide (sk.role = Role.answerer)
              then { sk with state := some AState.waiting } else sk) x).isOpen = x.isOpen := by
          intro x; dsimp only; split <;> rfl
        have hWId : ∀ x : Socket,
            ((fun sk => if sk.isOpen && decide (sk.role = Role.answerer)
              then { sk with state := some AState.waiting } else sk) x).sockId = x.sockId := by
          intro x; dsimp only; split <;> rfl
        have hWRole : ∀ x : Socket,
            ((fun sk => if sk.isOpen && decide (sk.role = Role.answerer)
              then { sk with state := some AState.waiting } else sk) x).role = x.role := by
          intro x; dsimp only; split <;> rfl
        have hWCid : ∀ x : Socket,
            ((fun sk => if sk.isOpen && decide (sk.role = Role.answerer)
              then { sk with state := some AState.waiting } else sk) x).cid = x.cid := by
          intro x; dsimp only; split <;> rfl
        have hmemW : ∀ sk : Socket, sk ∈ openList (setAllAnswerersWaiting (markClosed s.sockets i)) ↔
            ∃ x ∈ openList (markClosed s.sockets i),
              (fun sk => if sk.isOpen && decide (sk.role = Role.answerer)
                then { sk with state := some AState.waiting } else sk) x = sk := by
          intro sk
          rw [setAllAnswerersWaiting, openList_map _ _ hWOpen]
          exact List.mem_map
        refine ⟨?_, ?_, ?_, ?_, ?_, ?_, ?_, ?_, ?_, ?_⟩
        · dsimp only
          rw [setAllAnswerersWaiting, map_sockId_comm _ _ hWId]
          exact k1
        · intro sk hsk
          rcases List.mem_map.1 (show sk ∈ (markClosed s.sockets i).map _ from hsk) with ⟨x, hx, rfl⟩
          rw [hWId]
          exact k2 x hx
        · intro sk1 hsk1 sk2 hsk2 r1 r2
          rcases (hmemW sk1).1 hsk1 with ⟨x1, hx1, rfl⟩
          rcases (hmemW sk2).1 hsk2 with ⟨x2, hx2, rfl⟩
          rw [hWRole] at r1 r2
          rw [k3 x1 hx1 x2 hx2 r1 r2]
        · intro cc hcc hcce sk hsk hskrole
          rcases (hmemW sk).1 hsk with ⟨x, hx, rfl⟩
          rw [hWRole] at hskrole
          rw [hWCid]
          exact k4 cc hcc hcce x hx hskrole
        · intro p hp
          exact absurd hp (List.not_mem_nil p)
        · intro p hp
          exact absurd hp (List.not_mem_nil p)
        · intro sk hsk hskrole hact hcidne
          exfalso
          rcases (hmemW sk).1 hsk with ⟨x, hx, rfl⟩
          rw [hWRole] at hskrole
          have hxopen : x.isOpen = true := (mem_openSockets_iff.1 ((hopen0 x).1 hx).1).2
          have hcond : (x.isOpen && decide (x.role = Role.answerer)) = true := by
            rw [Bool.and_eq_true]
            exact ⟨hxopen, by simpa using hskrole⟩
          have hst : ((fun sk => if sk.isOpen && decide (sk.role = Role.answerer)
              then { sk with state := some AState.waiting } else sk) x).state =
              some AState.waiting := by
            dsimp only
            rw [if_pos hcond]
          rw [hst] at hact
          exact absurd hact (by simp)
        · intro p hp
          exact absurd hp (List.not_mem_nil p)
        · intro p hp
          exact absurd hp (List.not_mem_nil p)
        · rw [activeCount_eq_countP]
          dsimp only
          have hzero : (setAllAnswerersWaiting (markClosed s.sockets i)).countP isActiveOpen = 0 := by
            rw [List.countP_eq_zero]
            intro a ha hpa
            rcases List.mem_map.1 (show a ∈ (markClosed s.sockets i).map _ from ha) with ⟨x, _, rfl⟩
            by_cases hcond : (x.isOpen && decide (x.role = Role.answerer)) = true
            · have hfalse : isActiveOpen (if (x.isOpen && decide (x.role = Role.answerer)) = true
                  then ({ x with state := some AState.waiting } : Socket) else x) = false := by
                rw [if_pos hcond]
                simp [isActiveOpen]
              rw [hfalse] at hpa
              exact absurd hpa (by decide)
            · have hfx : (if (x.isOpen && decide (x.role = Role.answerer)) = true
                  then ({ x with state := some AState.waiting } : Socket) else x) = x := if_neg hcond
              rw [hfx] at hpa
              simp only [isActiveOpen, Bool.and_eq_true, decide_eq_true_eq] at hpa
              refine hcond ?_
              rw [Bool.and_eq_true]
              exact ⟨hpa.1.1, by simp [hpa.1.2]⟩
          rw [hzero]
          exact Nat.zero_le _

end Pairlane

namespace Pairlane

/-- One event preserves the Room invariant. -/
theorem inv_step (s : RoomState) (e : Ev) (hinv : Inv s) : Inv (step s e).1 := by
  cases e with
  | upgrade c now => exact inv_stepUpgrade s c now hinv
  | msg i m => exact inv_stepMsg s i m hinv
  | close i => exact inv_stepClose s i hinv

/-- A fresh room satisfies the invariant. -/
theorem inv_initRoom (m : Nat) (cc : Option String) : Inv (initRoom m cc) := by
  refine ⟨?_, ?_, ?_, ?_, ?_, ?_, ?_, ?_, ?_, ?_⟩ <;>
    simp [initRoom, openSockets, openList, answererSockets, activeCount]

/-- Every reachable room state satisfies the invariant. -/
theorem inv_runRoom (m : Nat) (cc : Option String) (evs : List Ev) :
    Inv (runRoom m cc evs) := by
  suffices h : ∀ (s : RoomState), Inv s → Inv (evs.foldl (fun s e => (step s e).1) s) by
    exact h _ (inv_initRoom m cc)
  induction evs with
  | nil => intro s hs; exact hs
  | cons e evs ih =>
    intro s hs
    rw [List.foldl_cons]
    exact ih _ (inv_step s e hs)

/-- `fillSlots` never touches the configuration. -/
theorem fillSlots_maxC (s : RoomState) :
    (fillSlots s).1.maxConcurrent = s.maxConcurrent := by
  unfold fillSlots
  cases getOffererSocket s with
  | none => rfl
  | some off =>
    dsimp only
    split_ifs <;> rfl

/-- Message handling never touches the configuration. -/
theorem stepMsg_maxC (s : RoomState) (i : Nat) (m : CMsg) :
    (stepMsg s i m).1.maxConcurrent = s.maxConcurrent := by
  cases m with
  | offer dst sid sdp => rw [stepMsg_offer_state]
  | answer dst sid sdp => rw [stepMsg_answer_state]
  | cand dst sid cd => rw [stepMsg_cand_state]
  | malformed => rw [stepMsg_malformed_state]
  | transferDone pid =>
    unfold stepMsg
    cases findSock s i with
    | none => rfl
    | some att =>
      dsimp only
      split_ifs
      · cases socketByCid s pid with
        | some ps => rw [fillSlots_maxC]
        | none => rw [fillSlots_maxC]
      · rfl

/-- Socket closure never touches the configuration. -/
theorem stepClose_maxC (s : RoomState) (i : Nat) :
    (stepClose s i).1.maxConcurrent = s.maxConcurrent := by
  unfold stepClose
  cases findSock s i with
  | none => rfl
  | some att =>
    dsimp only
    split
    · split_ifs
      · rfl
      · rw [fillSlots_maxC]
      · rw [fillSlots_maxC]
    · split_ifs <;> rfl

/-- Upgrades never touch the configuration. -/
theorem stepUpgrade_maxC (s : RoomState) (c : String) (now : Nat) :
    (stepUpgrade s c now).1.maxConcurrent = s.maxConcurrent := by
  unfold stepUpgrade
  dsimp only
  rw [fillSlots_maxC]

/-- One event never touches the configuration. -/
theorem step_maxC (s : RoomState) (e : Ev) :
    (step s e).1.maxConcurrent = s.maxConcurrent := by
  cases e with
  | upgrade c now => exact stepUpgrade_maxC s c now
  | msg i m => exact stepMsg_maxC s i m
  | close i => exact stepClose_maxC s i

/-- The configuration of a reachable state is the seeded one. -/
theorem runRoom_maxC (m : Nat) (cc : Option String) (evs : List Ev) :
    (runRoom m cc evs).maxConcurrent = m := by
  suffices h : ∀ (s : RoomState), (evs.foldl (fun s e => (step s e).1) s).maxConcurrent =
      s.maxConcurrent by
    exact h (initRoom m cc)
  induction evs with
  | nil => intro s; rfl
  | cons e evs ih =>
    intro s
    rw [List.foldl_cons, ih, step_maxC]

/-- C1: in every reachable Room state — after any sequence of upgrades,
relayed messages, transfer-done messages, and socket closures — the
number of open answerer sockets whose state is active is at most the
room's `maxConcurrent`. -/
theorem C1_active_le_maxConcurrent (m : Nat) (cc : Option String) (evs : List Ev) :
    activeCount (runRoom m cc evs) ≤ m := by
  obtain ⟨_, _, _, _, _, _, _, _, _, h10⟩ := inv_runRoom m cc evs
  rw [runRoom_maxC] at h10
  exact h10

end Pairlane

namespace Pairlane

/-- Looking up a member's state by its identity. -/
theorem stateInList_eq_of_mem (l : List Socket) (hnodup : (l.map (·.sockId)).Nodup)
    (sk : Socket) (hmem : sk ∈ l) : stateInList l sk.sockId = sk.state := by
  unfold stateInList
  rw [find?_id_self l hnodup sk hmem]

/-- `fillSlots` only ever changes the state of waiting sockets. -/
theorem fillSlots_stateOf_not_waiting (s : RoomState)
    (hnodup : (s.sockets.map (·.sockId)).Nodup)
    (sk : Socket) (hmem : sk ∈ s.sockets) (hnw : ¬ sk.state = some AState.waiting) :
    stateOf (fillSlots s).1 sk.sockId = sk.state := by
  cases hoff : getOffererSocket s with
  | none =>
    rw [show (fillSlots s).1 = s from by simp [fillSlots, hoff]]
    exact stateInList_eq_of_mem s.sockets hnodup sk hmem
  | some off =>
    by_cases hcid : off.cid = ""
    · rw [show (fillSlots s).1 = s from by simp [fillSlots, hoff, hcid]]
      exact stateInList_eq_of_mem s.sockets hnodup sk hmem
    · by_cases hfull : s.maxConcurrent ≤ activeCount s
      · rw [show (fillSlots s).1 = s from by simp [fillSlots, hoff, hcid, hfull]]
        exact stateInList_eq_of_mem s.sockets hnodup sk hmem
      · rw [fillSlots_eq s off hoff hcid hfull]
        have hf : ∀ x : Socket, ((fun sk =>
            if sk.sockId ∈ ((waitingSorted s).take (s.maxConcurrent - activeCount s)).map (·.sockId)
            then { sk with state := some AState.active } else sk) x).sockId = x.sockId := by
          intro x; dsimp only; split <;> rfl
        have hstate : stateOf { s with
            sockets := s.sockets.map (fun sk =>
              if sk.sockId ∈
                ((waitingSorted s).take (s.maxConcurrent - activeCount s)).map (·.sockId)
              then { sk with state := some AState.active } else sk),
            activePairs := ((waitingSorted s).take (s.maxConcurrent - activeCount s)).foldl
              (fun ps sk => if sk.cid ≠ "" then setPair ps sk.cid off.cid else ps) s.activePairs }
            sk.sockId =
            (if sk.sockId ∈
              ((waitingSorted s).take (s.maxConcurrent - activeCount s)).map (·.sockId)
            then ({ sk with state := some AState.active } : Socket) else sk).state := by
          show stateInList (s.sockets.map _) sk.sockId = _
          rw [stateInList_map s.sockets _ hf hnodup sk hmem]
        rw [hstate]
        by_cases hin : sk.sockId ∈
            ((waitingSorted s).take (s.maxConcurrent - activeCount s)).map (·.sockId)
        · exfalso
          rcases List.mem_map.1 hin with ⟨q, hq, hqid⟩
          have hqwl := take_waitingSorted_mem hq
          obtain ⟨hqmem, _, _, hqst⟩ := mem_waitingList.1 hqwl
          rw [List.inj_on_of_nodup_map hnodup hqmem hmem hqid] at hqst
          exact hnw hqst
        · rw [if_neg hin]

end Pairlane

namespace Pairlane

/-- A receiver in state done stays done across any single event, except
that an offerer's departure may reset it to waiting. -/
theorem done_step (s : RoomState) (hinv : Inv s) (e : Ev) (i : Nat)
    (hdone : stateOf s i = some AState.done) :
    stateOf (step s e).1 i = some AState.done ∨
    (stateOf (step s e).1 i = some AState.waiting ∧
      ∃ j att, e = Ev.close j ∧ findSock s j = some att ∧ att.role = Role.offerer) := by
  have hdone' : (match findSock s i with
      | some sk => sk.state
      | none => none) = some AState.done := hdone
  cases hfind : findSock s i with
  | none =>
    rw [hfind] at hdone'
    simp at hdone'
  | some sk₀ =>
    rw [hfind] at hdone'
    dsimp only at hdone'
    have hs0mem : sk₀ ∈ s.sockets := List.mem_of_find?_eq_some hfind
    have hs0id : sk₀.sockId = i := by simpa using List.find?_some hfind
    subst hs0id
    have hnw : ¬ sk₀.state = some AState.waiting := by
      rw [hdone']
      simp
    cases e with
    | upgrade c now =>
      left
      have hinv2 := inv_upgrade_mid s c now hinv
      have hgid : ∀ x : Socket,
          ((fun sk => if sk.isOpen && decide (sk.cid = c) then { sk with isOpen := false } else sk)
            x).sockId = x.sockId := by
        intro x; dsimp only; split <;> rfl
      have hgst : ∀ x : Socket,
          ((fun sk => if sk.isOpen && decide (sk.cid = c) then { sk with isOpen := false } else sk)
            x).state = x.state := by
        intro x; dsimp only; split <;> rfl
      have hchg : (step s (Ev.upgrade c now)).1 = (fillSlots { s with
          sockets := closeAllWithCid s.sockets c ++
            [{ sockId := s.nextId, cid := c,
               role := pickRole { s with sockets := closeAllWithCid s.sockets c } c,
               state := if pickRole { s with sockets := closeAllWithCid s.sockets c } c =
                   Role.answerer
                 then some AState.waiting else none,
               joinedAt := now, isOpen := true }],
          nextId := s.nextId + 1 }).1 := rfl
      rw [hchg]
      have hmem2 : (fun sk => if sk.isOpen && decide (sk.cid = c)
          then { sk with isOpen := false } else sk) sk₀ ∈
          closeAllWithCid s.sockets c ++
            [{ sockId := s.nextId, cid := c,
               role := pickRole { s with sockets := closeAllWithCid s.sockets c } c,
               state := if pickRole { s with sockets := closeAllWithCid s.sockets c } c =
                   Role.answerer
                 then some AState.waiting else none,
               joinedAt := now, isOpen := true }] :=
        List.mem_append_left _ (List.mem_map_of_mem _ hs0mem)
      have hfin := fillSlots_stateOf_not_waiting _ hinv2.1 _ hmem2
        (by rw [hgst]; exact hnw)
      rw [hgid] at hfin
      rw [hfin, hgst, hdone']
    | msg i' m =>
      left
      cases m with
      | offer dst sid sdp =>
        rw [show (step s (Ev.msg i' (CMsg.offer dst sid sdp))).1 = s from
          stepMsg_offer_state s i' dst sid sdp]
        exact hdone
      | answer dst sid sdp =>
        rw [show (step s (Ev.msg i' (CMsg.answer dst sid sdp))).1 = s from
          stepMsg_answer_state s i' dst sid sdp]
        exact hdone
      | cand dst sid cd =>
        rw [show (step s (Ev.msg i' (CMsg.cand dst sid cd))).1 = s from
          stepMsg_cand_state s i' dst sid cd]
        exact hdone
      | malformed =>
        rw [show (step s (Ev.msg i' CMsg.malformed)).1 = s from
          stepMsg_malformed_state s i']
        exact hdone
      | transferDone pid =>
        show stateOf (stepMsg s i' (CMsg.transferDone pid)).1 sk₀.sockId = some AState.done
        unfold stepMsg
        cases hfa : findSock s i' with
        | none => exact hdone
        | some att =>
          dsimp only
          by_cases hrole : att.role = Role.offerer
          · rw [if_pos hrole]
            cases hby : socketByCid s pid with
            | none =>
              have hfin := fillSlots_stateOf_not_waiting s hinv.1 sk₀ hs0mem hnw
              rw [hfin, hdone']
            | some ps =>
              have hinv1 := inv_setDone s ps.sockId hinv
              have hfid : ∀ x : Socket,
                  ((fun sk => if sk.sockId = ps.sockId then { sk with state := some AState.done }
                    else sk) x).sockId = x.sockId := by
                intro x; dsimp only; split <;> rfl
              have hfst : ((fun sk => if sk.sockId = ps.sockId
                  then { sk with state := some AState.done } else sk) sk₀).state =
                  some AState.done := by
                dsimp only
                split
                · rfl
                · exact hdone'
              have hmem1 : (fun sk => if sk.sockId = ps.sockId
                  then { sk with state := some AState.done } else sk) sk₀ ∈
                  setStateById s.sockets ps.sockId AState.done :=
                List.mem_map_of_mem _ hs0mem
              have hfin := fillSlots_stateOf_not_waiting
                { s with sockets := setStateById s.sockets ps.sockId AState.done }
                hinv1.1 _ hmem1 (by rw [hfst]; simp)
              rw [hfid] at hfin
              rw [hfin, hfst]
          · rw [if_neg hrole]
            exact hdone
    | close j =>
      show stateOf (stepClose s j).1 sk₀.sockId = some AState.done ∨
        (stateOf (stepClose s j).1 sk₀.sockId = some AState.waiting ∧
          ∃ j' att, Ev.close j = Ev.close j' ∧ findSock s j' = some att ∧
            att.role = Role.offerer)
      unfold stepClose
      cases hfj : findSock s j with
      | none => exact Or.inl hdone
      | some att =>
        dsimp only
        have hmid : ∀ x : Socket,
            ((fun sk => if sk.sockId = j then { sk with isOpen := false } else sk) x).sockId
              = x.sockId := by
          intro x; dsimp only; split <;> rfl
        have hmst : ∀ x : Socket,
            ((fun sk => if sk.sockId = j then { sk with isOpen := false } else sk) x).state
              = x.state := by
          intro x; dsimp only; split <;> rfl
        have hnodup0 : ((markClosed s.sockets j).map (·.sockId)).Nodup := by
          rw [markClosed, map_sockId_comm _ _ hmid]
          exact hinv.1
        have hmem0 : (fun sk => if sk.sockId = j then { sk with isOpen := false } else sk) sk₀ ∈
            markClosed s.sockets j := List.mem_map_of_mem _ hs0mem
        have hst0 : stateInList (markClosed s.sockets j) sk₀.sockId = some AState.done := by
          have h0 := stateInList_eq_of_mem _ hnodup0 _ hmem0
          rw [hmid] at h0
          rw [h0, hmst, hdone']
        split
        next hrole =>
          left
          by_cases hrep : (decide (att.cid ≠ "") &&
              hasOpenSocket { s with sockets := markClosed s.sockets j } att.cid
                Role.answerer) = true
          · rw [if_pos hrep]
            exact hst0
          · rw [if_neg hrep]
            by_cases hcid : att.cid ≠ ""
            · rw [if_pos hcid]
              have hfin := fillSlots_stateOf_not_waiting
                { s with
                    sockets := markClosed s.sockets j,
                    activePairs := delPair s.activePairs att.cid }
                hnodup0 _ hmem0 (by rw [hmst]; exact hnw)
              rw [hmid] at hfin
              rw [hfin, hmst, hdone']
            · rw [if_neg hcid]
              have hfin := fillSlots_stateOf_not_waiting
                { s with sockets := markClosed s.sockets j }
                hnodup0 _ hmem0 (by rw [hmst]; exact hnw)
              rw [hmid] at hfin
              rw [hfin, hmst, hdone']
        next hrole =>
          by_cases hrep : (decide (att.cid ≠ "") &&
              hasOpenSocket { s with sockets := markClosed s.sockets j } att.cid
                Role.offerer) = true
          · left
            rw [if_pos hrep]
            exact hst0
          · rw [if_neg hrep]
            have hwid : ∀ x : Socket,
                ((fun sk => if sk.isOpen && decide (sk.role = Role.answerer)
                  then { sk with state := some AState.waiting } else sk) x).sockId = x.sockId := by
              intro x; dsimp only; split <;> rfl
            have hnodupW : ((setAllAnswerersWaiting (markClosed s.sockets j)).map (·.sockId)).Nodup := by
              rw [setAllAnswerersWaiting, map_sockId_comm _ _ hwid]
              exact hnodup0
            have hmemW : (fun sk => if sk.isOpen && decide (sk.role = Role.answerer)
                then { sk with state := some AState.waiting } else sk)
                ((fun sk => if sk.sockId = j then { sk with isOpen := false } else sk) sk₀) ∈
                setAllAnswerersWaiting (markClosed s.sockets j) :=
              List.mem_map_of_mem _ hmem0
            have hstW := stateInList_eq_of_mem _ hnodupW _ hmemW
            rw [hwid, hmid] at hstW
            by_cases hcond : (((fun sk => if sk.sockId = j then { sk with isOpen := false }
                else sk) sk₀).isOpen &&
                decide (((fun sk => if sk.sockId = j then { sk with isOpen := false }
                  else sk) sk₀).role = Role.answerer)) = true
            · right
              constructor
              · show stateInList (setAllAnswerersWaiting (markClosed s.sockets j)) sk₀.sockId =
                  some AState.waiting
                rw [hstW]
                have : ((fun sk => if sk.isOpen && decide (sk.role = Role.answerer)
                    then { sk with state := some AState.waiting } else sk)
                    ((fun sk => if sk.sockId = j then { sk with isOpen := false } else sk) sk₀)).state
                    = some AState.waiting := by
                  dsimp only
                  rw [if_pos hcond]
                rw [this]
              · exact ⟨j, att, rfl, hfj, hrole⟩
            · left
              show stateInList (setAllAnswerersWaiting (markClosed s.sockets j)) sk₀.sockId =
                some AState.done
              rw [hstW]
              have : ((fun sk => if sk.isOpen && decide (sk.role = Role.answerer)
                  then { sk with state := some AState.waiting } else sk)
                  ((fun sk => if sk.sockId = j then { sk with isOpen := false } else sk) sk₀)) =
                  (fun sk => if sk.sockId = j then { sk with isOpen := false } else sk) sk₀ := by
                dsimp only
                rw [if_neg hcond]
              rw [this, hmst, hdone']

end Pairlane

namespace Pairlane

/-- C5 counterexample: receiver `a` is set to done by `transfer-done{a}`;
after the offerer closes (which resets every open receiver — including
done ones — to waiting) and a new sender joins, the slot filler promotes
`a` back to active within the same room. -/
theorem C5_counterexample :
    stateOf (runRoom 3 none [Ev.upgrade "o" 0, Ev.upgrade "a" 1,
      Ev.msg 0 (CMsg.transferDone "a")]) 1 = some AState.done ∧
    stateOf (runRoom 3 none [Ev.upgrade "o" 0, Ev.upgrade "a" 1,
      Ev.msg 0 (CMsg.transferDone "a"), Ev.close 0, Ev.upgrade "p" 2]) 1 =
      some AState.active := by
  decide

/-- C5 amended: in any reachable state, a receiver in state done can never
move directly to active: after one more event it is either still done, or
it has been reset to waiting — and the latter happens only on a close
event of a socket whose attachment carries the offerer role.  (Through
that reset a later slot fill may re-activate it.) -/
theorem C5_done_stability_amended (m : Nat) (cc : Option String) (evs : List Ev)
    (e : Ev) (i : Nat)
    (hdone : stateOf (runRoom m cc evs) i = some AState.done) :
    stateOf (step (runRoom m cc evs) e).1 i = some AState.done ∨
    (stateOf (step (runRoom m cc evs) e).1 i = some AState.waiting ∧
      ∃ j att, e = Ev.close j ∧ findSock (runRoom m cc evs) j = some att ∧
        att.role = Role.offerer) :=
  done_step (runRoom m cc evs) (inv_runRoom m cc evs) e i hdone

/-- Witness for C5's amended statement: the offerer's departure resets the
done receiver to waiting. -/
theorem C5_amended_witness :
    stateOf (step (runRoom 3 none [Ev.upgrade "o" 0, Ev.upgrade "a" 1,
        Ev.msg 0 (CMsg.transferDone "a")]) (Ev.close 0)).1 1 = some AState.done ∨
    (stateOf (step (runRoom 3 none [Ev.upgrade "o" 0, Ev.upgrade "a" 1,
        Ev.msg 0 (CMsg.transferDone "a")]) (Ev.close 0)).1 1 = some AState.waiting ∧
      ∃ j att, Ev.close 0 = Ev.close j ∧
        findSock (runRoom 3 none [Ev.upgrade "o" 0, Ev.upgrade "a" 1,
          Ev.msg 0 (CMsg.transferDone "a")]) j = some att ∧
        att.role = Role.offerer) :=
  C5_done_stability_amended 3 none
    [Ev.upgrade "o" 0, Ev.upgrade "a" 1, Ev.msg 0 (CMsg.transferDone "a")]
    (Ev.close 0) 1 (by decide)

/-- C2 counterexample: after an accepted `transfer-done{a}` the receiver
`a` is in state done, yet `activePairs["a"]` still exists and still maps
to the offerer — the entry is not removed, refuting the claimed
equivalence between entry existence and the active state. -/
theorem C2_counterexample :
    socketByCid (runRoom 3 none [Ev.upgrade "o" 0, Ev.upgrade "a" 1,
        Ev.msg 0 (CMsg.transferDone "a")]) "a" =
      some { sockId := 1, cid := "a", role := Role.answerer,
             state := some AState.done, joinedAt := 1, isOpen := true } ∧
    lookupPair (runRoom 3 none [Ev.upgrade "o" 0, Ev.upgrade "a" 1,
        Ev.msg 0 (CMsg.transferDone "a")]).activePairs "a" = some "o" := by
  decide

/-- C2 amended: in every reachable state, every open active answerer with
a non-empty cid has an `activePairs` entry equal to the cid of every open
offerer; every entry's key is carried by some open socket; but the
converse of the claimed equivalence fails: accepting `transfer-done`
never removes an entry (it only marks the receiver done and re-runs the
slot filler, which adds entries), so entries can persist for receivers
that are no longer active. -/
theorem C2_activePairs_amended (m : Nat) (cc : Option String) (evs : List Ev) :
    (∀ sk ∈ openSockets (runRoom m cc evs), sk.role = Role.answerer →
      sk.state = some AState.active → sk.cid ≠ "" →
      ∃ o, lookupPair (runRoom m cc evs).activePairs sk.cid = some o ∧
        ∀ off ∈ openSockets (runRoom m cc evs), off.role = Role.offerer → off.cid = o) ∧
    (∀ p ∈ (runRoom m cc evs).activePairs,
      ∃ sk ∈ openSockets (runRoom m cc evs), sk.cid = p.1) ∧
    (∀ i pid c,
      (lookupPair (runRoom m cc evs).activePairs c).isSome = true →
      (lookupPair (stepMsg (runRoom m cc evs) i (CMsg.transferDone pid)).1.activePairs
        c).isSome = true) := by
  obtain ⟨h1, h2, h3, h4, h5, h6, h7, h8, h9, h10⟩ := inv_runRoom m cc evs
  refine ⟨?_, h8, ?_⟩
  · intro sk hsk hrole hact hcid
    have hsome := h7 sk hsk hrole hact hcid
    rcases Option.isSome_iff_exists.mp hsome with ⟨o, ho⟩
    refine ⟨o, ho, ?_⟩
    intro off hoff hoffrole
    exact h6 (sk.cid, o) (mem_of_lookupPair _ _ _ ho) off hoff hoffrole
  · intro i pid c hsome
    unfold stepMsg
    cases hfa : findSock (runRoom m cc evs) i with
    | none => exact hsome
    | some att =>
      dsimp only
      by_cases hrole : att.role = Role.offerer
      · rw [if_pos hrole]
        have hpairs_mono : ∀ (t : RoomState), t.activePairs = (runRoom m cc evs).activePairs →
            (lookupPair (fillSlots t).1.activePairs c).isSome = true := by
          intro t hteq
          cases hofft : getOffererSocket t with
          | none =>
            rw [show (fillSlots t).1 = t from by simp [fillSlots, hofft], hteq]
            exact hsome
          | some off =>
            by_cases hcid2 : off.cid = ""
            · rw [show (fillSlots t).1 = t from by simp [fillSlots, hofft, hcid2], hteq]
              exact hsome
            · by_cases hfull : t.maxConcurrent ≤ activeCount t
              · rw [show (fillSlots t).1 = t from by simp [fillSlots, hofft, hcid2, hfull], hteq]
                exact hsome
              · rw [fillSlots_eq t off hofft hcid2 hfull]
                apply foldPairs_isSome_mono
                rw [hteq]
                exact hsome
        cases hby : socketByCid (runRoom m cc evs) pid with
        | some ps => exact hpairs_mono _ rfl
        | none => exact hpairs_mono _ rfl
      · rw [if_neg hrole]
        exact hsome

/-- Witness for C2's amended statement at a concrete reachable state. -/
theorem C2_amended_witness :
    ∃ o, lookupPair (runRoom 3 none [Ev.upgrade "o" 0, Ev.upgrade "a" 1]).activePairs "a" =
        some o ∧
      ∀ off ∈ openSockets (runRoom 3 none [Ev.upgrade "o" 0, Ev.upgrade "a" 1]),
        off.role = Role.offerer → off.cid = o := by
  have h := (C2_activePairs_amended 3 none [Ev.upgrade "o" 0, Ev.upgrade "a" 1]).1
    { sockId := 1, cid := "a", role := Role.answerer, state := some AState.active,
      joinedAt := 1, isOpen := true }
    (by decide) (by decide) (by decide) (by decide)
  exact h

end Pairlane

namespace Pairlane

/-- A cid carried by some open socket is found by `socketByCid`. -/
theorem socketByCid_isSome_of_mem (s : RoomState) (c : String) (sk : Socket)
    (hmem : sk ∈ openSockets s) (hcid : sk.cid = c) :
    ∃ tg, socketByCid s c = some tg := by
  unfold socketByCid
  have h : ((openSockets s).find? (fun sk => decide (sk.cid = c))).isSome = true :=
    List.find?_isSome.mpr ⟨sk, hmem, by simp [hcid]⟩
  exact Option.isSome_iff_exists.mp h

/-- C3: in every reachable Room state, an offer is relayed exactly when the
origin socket's role is offerer and `activePairs[msg.to]` equals the
origin's cid; an answer exactly when the origin is an answerer and
`activePairs[origin.cid]` equals `msg.to`; a candidate under whichever of
the two rules matches the origin's role.  In the authorized cases the
target socket exists, and the single relayed frame goes to that target
with the `to` field stripped and `from` set to the origin's cid (the
relayed payload carries only origin cid, sid and body); unauthorized or
unpaired frames, and unparseable input, produce no outgoing frame; none
of the relay cases changes the Room state. -/
theorem C3_relay_authorization (m : Nat) (cc : Option String) (evs : List Ev)
    (s : RoomState) (hs : s = runRoom m cc evs)
    (i : Nat) (att : Socket) (hatt : findSock s i = some att)
    (dst : String) (sid : Nat) (pay : String) :
    ((stepMsg s i (CMsg.offer dst sid pay)).1 = s ∧
      (att.role = Role.offerer → lookupPair s.activePairs dst = some att.cid →
        ∃ tg, socketByCid s dst = some tg ∧
          (stepMsg s i (CMsg.offer dst sid pay)).2 =
            [(tg.sockId, SMsg.offerMsg att.cid sid pay)]) ∧
      (¬ (att.role = Role.offerer ∧ lookupPair s.activePairs dst = some att.cid) →
        (stepMsg s i (CMsg.offer dst sid pay)).2 = [])) ∧
    ((stepMsg s i (CMsg.answer dst sid pay)).1 = s ∧
      (att.role = Role.answerer → lookupPair s.activePairs att.cid = some dst →
        ∃ tg, socketByCid s dst = some tg ∧
          (stepMsg s i (CMsg.answer dst sid pay)).2 =
            [(tg.sockId, SMsg.answerMsg att.cid sid pay)]) ∧
      (¬ (att.role = Role.answerer ∧ lookupPair s.activePairs att.cid = some dst) →
        (stepMsg s i (CMsg.answer dst sid pay)).2 = [])) ∧
    ((stepMsg s i (CMsg.cand dst sid pay)).1 = s ∧
      ((att.role = Role.offerer ∧ lookupPair s.activePairs dst = some att.cid) ∨
        (att.role = Role.answerer ∧ lookupPair s.activePairs att.cid = some dst) →
        ∃ tg, socketByCid s dst = some tg ∧
          (stepMsg s i (CMsg.cand dst sid pay)).2 =
            [(tg.sockId, SMsg.candMsg att.cid sid pay)]) ∧
      (¬ ((att.role = Role.offerer ∧ lookupPair s.activePairs dst = some att.cid) ∨
          (att.role = Role.answerer ∧ lookupPair s.activePairs att.cid = some dst)) →
        (stepMsg s i (CMsg.cand dst sid pay)).2 = [])) ∧
    stepMsg s i CMsg.malformed = (s, []) := by
  have hinv : Inv s := by rw [hs]; exact inv_runRoom m cc evs
  obtain ⟨h1, h2, h3, h4, h5, h6, h7, h8, h9, h10⟩ := hinv
  refine ⟨⟨stepMsg_offer_state s i dst sid pay, ?_, ?_⟩,
    ⟨stepMsg_answer_state s i dst sid pay, ?_, ?_⟩,
    ⟨stepMsg_cand_state s i dst sid pay, ?_, ?_⟩, ?_⟩
  · intro hr hp
    obtain ⟨sk, hskmem, hskcid⟩ := h8 (dst, att.cid) (mem_of_lookupPair _ _ _ hp)
    obtain ⟨tg, htg⟩ := socketByCid_isSome_of_mem s dst sk hskmem hskcid
    refine ⟨tg, htg, ?_⟩
    unfold stepMsg
    rw [hatt]
    dsimp only
    rw [if_pos ⟨hr, hp⟩, htg]
  · intro hn
    unfold stepMsg
    rw [hatt]
    dsimp only
    rw [if_neg hn]
  · intro hr hp
    obtain ⟨off, hoffmem, hoffrole⟩ := h5 (att.cid, dst) (mem_of_lookupPair _ _ _ hp)
    have hoffcid : off.cid = dst :=
      h6 (att.cid, dst) (mem_of_lookupPair _ _ _ hp) off hoffmem hoffrole
    obtain ⟨tg, htg⟩ := socketByCid_isSome_of_mem s dst off hoffmem hoffcid
    refine ⟨tg, htg, ?_⟩
    unfold stepMsg
    rw [hatt]
    dsimp only
    rw [if_pos ⟨hr, hp⟩, htg]
  · intro hn
    unfold stepMsg
    rw [hatt]
    dsimp only
    rw [if_neg hn]
  · intro hauth
    have htgex : ∃ tg, socketByCid s dst = some tg := by
      rcases hauth with ⟨hr, hp⟩ | ⟨hr, hp⟩
      · obtain ⟨sk, hskmem, hskcid⟩ := h8 (dst, att.cid) (mem_of_lookupPair _ _ _ hp)
        exact socketByCid_isSome_of_mem s dst sk hskmem hskcid
      · obtain ⟨off, hoffmem, hoffrole⟩ := h5 (att.cid, dst) (mem_of_lookupPair _ _ _ hp)
        have hoffcid : off.cid = dst :=
          h6 (att.cid, dst) (mem_of_lookupPair _ _ _ hp) off hoffmem hoffrole
        exact socketByCid_isSome_of_mem s dst off hoffmem hoffcid
    obtain ⟨tg, htg⟩ := htgex
    refine ⟨tg, htg, ?_⟩
    unfold stepMsg
    rw [hatt]
    dsimp only
    rw [if_pos hauth, htg]
  · intro hn
    unfold stepMsg
    rw [hatt]
    dsimp only
    rw [if_neg hn]
  · unfold stepMsg
    rw [hatt]

/-- Witness for C3 at a concrete reachable room: the offerer `o` relays an
offer to the paired answerer `a`, and the relayed frame carries
`from = "o"`, the sid and the sdp. -/
theorem C3_witness :
    ∃ tg, socketByCid (runRoom 3 none [Ev.upgrade "o" 0, Ev.upgrade "a" 1]) "a" = some tg ∧
      (stepMsg (runRoom 3 none [Ev.upgrade "o" 0, Ev.upgrade "a" 1]) 0
          (CMsg.offer "a" 7 "SDP")).2 =
        [(tg.sockId, SMsg.offerMsg "o" 7 "SDP")] :=
  (C3_relay_authorization 3 none [Ev.upgrade "o" 0, Ev.upgrade "a" 1] _ rfl 0
      { sockId := 0, cid := "o", role := Role.offerer, state := none,
        joinedAt := 0, isOpen := true }
      (by decide) "a" 7 "SDP").1.2.1 (by decide) (by decide)

end Pairlane
